import Mathlib

/-!
Shallow embedding of the API discovery bot core
(`api_bot/core/discovery_bot.py`): host normalisation, the hashing
embedding (including MD5), the SQLite-backed catalog state machine
(apis, endpoints, embeddings, full-text index, search log), search,
statistics and export.  Python strings are modelled as `List Char`
(the catalog only ever handles ASCII-range operations); SQL `NULL` is
`Option.none`; float arithmetic is modelled over `ℝ`.
-/

/-! ### Python string primitives (modelled on `List Char`) -/

/-- Model of `str.lower` for one character (ASCII range, which is all the
code ever feeds it). -/
def lowerChar (c : Char) : Char :=
  if 'A' ≤ c ∧ c ≤ 'Z' then Char.ofNat (c.toNat + 32) else c

/-- Model of `str.upper` for one character (ASCII range). -/
def upperChar (c : Char) : Char :=
  if 'a' ≤ c ∧ c ≤ 'z' then Char.ofNat (c.toNat - 32) else c

/-- Model of `str.lower`. -/
def pyLower (l : List Char) : List Char := l.map lowerChar

/-- Model of `str.upper`. -/
def pyUpper (l : List Char) : List Char := l.map upperChar

/-- Whitespace characters recognised by `str.strip` (ASCII subset). -/
def isPySpace (c : Char) : Bool :=
  c = ' ' || c = '\t' || c = '\n' || c = '\r' || c = '\x0b' || c = '\x0c'

/-- Model of `str.strip`: drop whitespace from both ends. -/
def pyStrip (l : List Char) : List Char :=
  ((l.dropWhile isPySpace).reverse.dropWhile isPySpace).reverse

/-- Decide whether `pat` occurs as a contiguous sublist of `l`
(model of Python `pat in s`). -/
def containsSub (pat : List Char) : List Char → Bool
  | [] => decide (pat = [])
  | c :: cs => pat.isPrefixOf (c :: cs) || containsSub pat cs

/-- Test `"://" in s` from `_norm_host`. -/
def containsSchemeSep (l : List Char) : Bool :=
  containsSub ("://".toList) l

/-- Model of `s.split("/")[0]`: the longest prefix not containing a slash. -/
def firstSegment (l : List Char) : List Char :=
  l.takeWhile (fun c => c ≠ '/')

/-- Model of `re.sub(r"^https?://", "", s)`: remove one leading
`http://` or `https://`. -/
def stripHttpScheme (l : List Char) : List Char :=
  if ("https://".toList).isPrefixOf l then l.drop 8
  else if ("http://".toList).isPrefixOf l then l.drop 7
  else l

/-- String-level wrapper for `pyLower`. -/
def pyLowerS (s : String) : String := String.mk (pyLower s.toList)

/-- String-level wrapper for `pyUpper`. -/
def pyUpperS (s : String) : String := String.mk (pyUpper s.toList)

/-! ### `_norm_host` -/

/-- Model of `_norm_host`: `None`/empty input gives `none`; input
containing `://` has a leading `http(s)://` removed and is cut at the
first `/`, then lowercased; other input is stripped and lowercased. -/
def norm_host (host_or_url : Option String) : Option String :=
  match host_or_url with
  | none => none
  | some s0 =>
    if s0 = "" then none
    else
      let s := pyStrip s0.toList
      if containsSchemeSep s then
        some (String.mk (pyLower (firstSegment (stripHttpScheme s))))
      else
        some (String.mk (pyLower s))


/-! ### Tokenizer: `re.findall(r"[a-z0-9]+", text.lower())` -/

/-- Character class `[a-z0-9]`. -/
def isTokChar (c : Char) : Bool :=
  ('a' ≤ c && c ≤ 'z') || ('0' ≤ c && c ≤ '9')

/-- Split a character list into maximal runs of `[a-z0-9]` characters;
`acc` holds the current run, reversed. -/
def tokenizeAux : List Char → List Char → List (List Char)
  | [], [] => []
  | [], acc => [acc.reverse]
  | c :: cs, acc =>
    if isTokChar c then tokenizeAux cs (c :: acc)
    else if acc.isEmpty then tokenizeAux cs []
    else acc.reverse :: tokenizeAux cs []

/-- Model of `re.findall(r"[a-z0-9]+", (text or "").lower())`. -/
def tokensOf (text : String) : List (List Char) :=
  tokenizeAux (pyLower text.toList) []


/-! ### MD5 (used by the embedding bucket function) -/

/-- 2^32. -/
def pow32 : ℕ := 4294967296

/-- Addition modulo 2^32. -/
def add32 (a b : ℕ) : ℕ := (a + b) % pow32

/-- Bitwise complement on 32 bits. -/
def not32 (a : ℕ) : ℕ := Nat.xor a 4294967295

/-- Left rotation of a 32-bit word. -/
def rotl32 (x n : ℕ) : ℕ :=
  Nat.lor ((x <<< n) % pow32) (x >>> (32 - n))

/-- Round constants `K[i] = floor(2^32 * |sin(i+1)|)` of MD5. -/
def md5K : List ℕ :=
  [3614090360, 3905402710, 606105819, 3250441966, 4118548399, 1200080426, 2821735955, 4249261313,
   1770035416, 2336552879, 4294925233, 2304563134, 1804603682, 4254626195, 2792965006, 1236535329,
   4129170786, 3225465664, 643717713, 3921069994, 3593408605, 38016083, 3634488961, 3889429448,
   568446438, 3275163606, 4107603335, 1163531501, 2850285829, 4243563512, 1735328473, 2368359562,
   4294588738, 2272392833, 1839030562, 4259657740, 2763975236, 1272893353, 4139469664, 3200236656,
   681279174, 3936430074, 3572445317, 76029189, 3654602809, 3873151461, 530742520, 3299628645,
   4096336452, 1126891415, 2878612391, 4237533241, 1700485571, 2399980690, 4293915773, 2240044497,
   1873313359, 4264355552, 2734768916, 1309151649, 4149444226, 3174756917, 718787259, 3951481745]

/-- Per-step left-rotation amounts of MD5. -/
def md5S : List ℕ :=
  [7, 12, 17, 22, 7, 12, 17, 22, 7, 12, 17, 22, 7, 12, 17, 22,
   5, 9, 14, 20, 5, 9, 14, 20, 5, 9, 14, 20, 5, 9, 14, 20,
   4, 11, 16, 23, 4, 11, 16, 23, 4, 11, 16, 23, 4, 11, 16, 23,
   6, 10, 15, 21, 6, 10, 15, 21, 6, 10, 15, 21, 6, 10, 15, 21]

/-- Nonlinear function of MD5 step `i` applied to `(b, c, d)`. -/
def md5F (i b c d : ℕ) : ℕ :=
  if i < 16 then Nat.lor (Nat.land b c) (Nat.land (not32 b) d)
  else if i < 32 then Nat.lor (Nat.land d b) (Nat.land (not32 d) c)
  else if i < 48 then Nat.xor b (Nat.xor c d)
  else Nat.xor c (Nat.lor b (not32 d))

/-- Message-word index used by MD5 step `i`. -/
def md5G (i : ℕ) : ℕ :=
  if i < 16 then i
  else if i < 32 then (5 * i + 1) % 16
  else if i < 48 then (3 * i + 5) % 16
  else (7 * i) % 16

/-- Little-endian byte decomposition, `k` bytes. -/
def leBytes (n : ℕ) : ℕ → List ℕ
  | 0 => []
  | k + 1 => n % 256 :: leBytes (n / 256) k

/-- Little-endian 32-bit word `i` of a 64-byte block. -/
def leWord (block : List ℕ) (i : ℕ) : ℕ :=
  block.getD (4 * i) 0 + 256 * block.getD (4 * i + 1) 0 +
    65536 * block.getD (4 * i + 2) 0 + 16777216 * block.getD (4 * i + 3) 0

/-- MD5 padding: append `0x80`, zeros to 56 mod 64, then the bit length
as 8 little-endian bytes. -/
def md5Pad (msg : List ℕ) : List ℕ :=
  let z := (120 - (msg.length + 1) % 64) % 64
  msg ++ 128 :: List.replicate z 0 ++ leBytes ((8 * msg.length) % 2 ^ 64) 8

/-- Split a byte list into 64-byte blocks; the fuel argument (any bound
on the number of blocks, here the list length) makes the recursion
structural so that the definition reduces inside the kernel. -/
def chunks64Aux : ℕ → List ℕ → List (List ℕ)
  | 0, _ => []
  | _ + 1, [] => []
  | fuel + 1, c :: cs => (c :: cs).take 64 :: chunks64Aux fuel ((c :: cs).drop 64)

/-- Split a byte list into 64-byte blocks. -/
def chunks64 (l : List ℕ) : List (List ℕ) :=
  chunks64Aux l.length l

/-- One of the 64 MD5 steps inside a block. -/
def md5Step (block : List ℕ) (st : ℕ × ℕ × ℕ × ℕ) (i : ℕ) : ℕ × ℕ × ℕ × ℕ :=
  let (a, b, c, d) := st
  let f := add32 (add32 (add32 (md5F i b c d) a) (md5K.getD i 0)) (leWord block (md5G i))
  (d, add32 b (rotl32 f (md5S.getD i 0)), b, c)

/-- Process one 64-byte block of MD5. -/
def md5Block (st : ℕ × ℕ × ℕ × ℕ) (block : List ℕ) : ℕ × ℕ × ℕ × ℕ :=
  let (a, b, c, d) := (List.range 64).foldl (md5Step block) st
  (add32 st.1 a, add32 st.2.1 b, add32 st.2.2.1 c, add32 st.2.2.2 d)

/-- Big-endian value of a byte list (model of `int(hexdigest, 16)`). -/
def beFromBytes (l : List ℕ) : ℕ :=
  l.foldl (fun acc b => acc * 256 + b) 0

/-- Model of `int(hashlib.md5(bytes).hexdigest(), 16)`. -/
def md5Int (msg : List ℕ) : ℕ :=
  let st := (chunks64 (md5Pad msg)).foldl md5Block
    (1732584193, 4023233417, 2562383102, 271733878)
  beFromBytes (leBytes st.1 4 ++ leBytes st.2.1 4 ++ leBytes st.2.2.1 4 ++ leBytes st.2.2.2 4)


/-! ### `_hashing_embed` -/

/-- Bucket of a token: `int(hashlib.md5(tok.encode("utf-8")).hexdigest(), 16) % dim`.
Tokens are runs of `[a-z0-9]`, whose UTF-8 bytes are their code points. -/
def bucket (dim : ℕ) (tok : List Char) : ℕ :=
  md5Int (tok.map Char.toNat) % dim


/-- Increment entry `i` of a count vector (model of `vec[h % dim] += 1.0`). -/
def bumpAt : List ℕ → ℕ → List ℕ
  | [], _ => []
  | x :: xs, 0 => (x + 1) :: xs
  | x :: xs, i + 1 => x :: bumpAt xs i

/-- Bucket counts of a text: the loop `for tok in tokens: vec[...] += 1.0`. -/
def rawCounts (dim : ℕ) (text : String) : List ℕ :=
  (tokensOf text).foldl (fun v t => bumpAt v (bucket dim t)) (List.replicate dim 0)

/-- Sum of squares of a real vector (`sum(v * v for v in vec)`). -/
def sumSq (v : List ℝ) : ℝ := (v.map (fun x => x * x)).sum

/-- Model of `_hashing_embed`: token-less text returns the zero vector
early; otherwise the bucket counts are divided by their Euclidean norm
(`math.sqrt(...) or 1.0`: a zero norm is replaced by 1). -/
noncomputable def hashing_embed (text : String) (dim : ℕ) : List ℝ :=
  if tokensOf text = [] then List.replicate dim (0 : ℝ)
  else
    let v : List ℝ := (rawCounts dim text).map (fun n : ℕ => (n : ℝ))
    let norm0 := Real.sqrt (sumSq v)
    let norm := if norm0 = 0 then 1 else norm0
    v.map (fun x => x / norm)

/-! ### Python / SQL value helpers -/

/-- Python truthiness of an optional string: `None` and `""` are falsy. -/
def truthy : Option String → Bool
  | none => false
  | some s => s ≠ ""

/-- Python `a or b` on optional strings. -/
def pyOr (a b : Option String) : Option String :=
  if truthy a then a else b

/-- Python `a or d` where the fallback is a plain string. -/
def orStr (a : Option String) (d : String) : String :=
  match a with
  | some s => if s = "" then d else s
  | none => d

/-- SQL `COALESCE` on two nullable values. -/
def coalesce (a b : Option String) : Option String :=
  match a with
  | some x => some x
  | none => b

/-! ### Database state -/

/-- Row of the `apis` table. -/
structure ApiRow where
  id : ℕ
  name : String
  host : String
  base_url : Option String
  description : Option String
  category : Option String
  docs_url : Option String
  openapi_url : Option String
  auth : Option String
  rate_limit : Option String
  status : Option String
  source : Option String
  created_at : String
  updated_at : Option String
deriving DecidableEq

/-- Row of the `endpoints` table (the surrogate `id` column is unused by
the code and omitted; identity is `(api_id, method, path)`). -/
structure EndpointRow where
  api_id : ℕ
  method : String
  path : String
  description : Option String
deriving DecidableEq

/-- Row of the `embeddings` table; the JSON-encoded vector is modelled as
the vector itself. -/
structure EmbeddingRow where
  api_id : ℕ
  dim : ℕ
  vector : List ℝ

/-- Entry of the `apis_fts` full-text index. -/
structure FtsRow where
  rowid : ℕ
  name : String
  description : Option String
  category : Option String
deriving DecidableEq

/-- Row of the `search_log` table. -/
structure SearchLogRow where
  ts : String
  query : String
deriving DecidableEq

/-- The whole SQLite database plus the bot connection.  `next_id` is the
AUTOINCREMENT counter of `apis`; `fts_available` records whether the FTS5
module is present; `fts` is the `apis_fts` index, which ingest never
manages to write (see `upsert_api`) and which is only populated by the
setup-time rebuild from pre-existing rows, outside this model.
`last_rowid` is the value of sqlite3_last_insert_rowid on the bot
connection (0 on a virgin connection): every successful INSERT sets it to
the rowid of the inserted row, an upsert that takes its DO UPDATE path
leaves it unchanged, and `_upsert_api` reads it as `cur.lastrowid`. -/
structure DbState where
  apis : List ApiRow
  endpoints : List EndpointRow
  embeddings : List EmbeddingRow
  fts : List FtsRow
  search_log : List SearchLogRow
  fts_available : Bool
  next_id : ℕ
  last_rowid : ℕ

/-- Error raised by the sqlite3 driver (`sqlite3.OperationalError`). -/
inductive DbError where
  | operationalError (msg : String)
deriving DecidableEq

/-- Freshly created database on a virgin connection (after
`setup_database`). -/
def emptyDb (fa : Bool) : DbState :=
  { apis := [], endpoints := [], embeddings := [], fts := [],
    search_log := [], fts_available := fa, next_id := 1, last_rowid := 0 }

/-- Endpoint dictionary inside an ingest payload; an absent key is
`none`, a key set to the empty string is `some ""`. -/
structure EpPayload where
  method : Option String
  path : Option String
  description : Option String
deriving DecidableEq

/-- Ingest payload: the dictionary read by `_upsert_api` through
`.get(...)`; every key the code consults is a field here. -/
structure Payload where
  name : Option String
  host : Option String
  base_url : Option String
  baseUrl : Option String
  description : Option String
  category : Option String
  docs_url : Option String
  docsUrl : Option String
  openapi_url : Option String
  openapiUrl : Option String
  auth : Option String
  auth_type : Option String
  rate_limit : Option String
  rateLimit : Option String
  status : Option String
  source : Option String
  endpoints : List EpPayload
deriving DecidableEq

/-- Payload with every key absent (`{}`). -/
def emptyPayload : Payload :=
  ⟨none, none, none, none, none, none, none, none, none, none,
   none, none, none, none, none, none, []⟩

/-! ### Upserts (`_upsert_api`, `_upsert_endpoints`, `_upsert_embedding`) -/

/-- Model of `_upsert_embedding`: store the 256-dim embedding of
of the concatenation of the name, a newline and the description
(empty when the description is absent) under the record id. -/
noncomputable def upsertEmbedding (es : List EmbeddingRow) (apiId : ℕ)
    (name description : String) : List EmbeddingRow :=
  let vec := hashing_embed (name ++ "\n" ++ description) 256
  if es.any (fun e => e.api_id == apiId) then
    es.map (fun e => if e.api_id == apiId then ⟨e.api_id, 256, vec⟩ else e)
  else es ++ [⟨apiId, 256, vec⟩]

/-- Model of `_upsert_embedding` together with its effect on
sqlite3_last_insert_rowid: the table effect is `upsertEmbedding`; when
the statement takes its INSERT path it sets the connection rowid to the
rowid of the inserted row, which for the `embeddings` table is its INTEGER
PRIMARY KEY `api_id`, and the DO UPDATE path leaves it unchanged. -/
noncomputable def upsertEmbeddingLr (es : List EmbeddingRow) (apiId : ℕ)
    (n d : String) (lr : ℕ) : List EmbeddingRow × ℕ :=
  (upsertEmbedding es apiId n d,
   if es.any (fun e => e.api_id == apiId) then lr else apiId)

/-- Normalised endpoint row built by `_upsert_endpoints`:
`(api_id, (method or "GET").upper(), path or "/", description)`. -/
def epRow (apiId : ℕ) (ep : EpPayload) : EndpointRow :=
  ⟨apiId, pyUpperS (orStr ep.method "GET"), orStr ep.path "/", ep.description⟩

/-- Model of one endpoint `INSERT ... ON CONFLICT(api_id, method, path)
DO UPDATE SET description=excluded.description`. -/
def upsertEndpointRow (l : List EndpointRow) (row : EndpointRow) : List EndpointRow :=
  if l.any (fun e => e.api_id == row.api_id && e.method == row.method && e.path == row.path) then
    l.map (fun e =>
      if e.api_id == row.api_id && e.method == row.method && e.path == row.path then
        { e with description := row.description }
      else e)
  else l ++ [row]

/-- Model of `_upsert_endpoints` (`executemany` runs the rows in order). -/
def upsertEndpointsRows (l : List EndpointRow) (apiId : ℕ) (eps : List EpPayload) : List EndpointRow :=
  eps.foldl (fun acc ep => upsertEndpointRow acc (epRow apiId ep)) l

/-- One endpoint statement together with its effect on
sqlite3_last_insert_rowid: an INSERT path sets it to the new endpoint
rowid — the `endpoints` table is AUTOINCREMENT and the program never
deletes endpoint rows, so the id of a freshly inserted row equals the new
row count — and the DO UPDATE path leaves it unchanged. -/
def upsertEndpointRowLr (acc : List EndpointRow × ℕ) (row : EndpointRow) :
    List EndpointRow × ℕ :=
  (upsertEndpointRow acc.1 row,
   if acc.1.any (fun e =>
       e.api_id == row.api_id && e.method == row.method && e.path == row.path) then acc.2
   else acc.1.length + 1)

/-- Model of `_upsert_endpoints` with rowid tracking. -/
def upsertEndpointsRowsLr (l : List EndpointRow) (apiId : ℕ) (eps : List EpPayload)
    (lr : ℕ) : List EndpointRow × ℕ :=
  eps.foldl (fun acc ep => upsertEndpointRowLr acc (epRow apiId ep)) (l, lr)

/-- Record name computed by `_upsert_api`: `api.get("name") or "Unknown"`. -/
def upsertName (api : Payload) : String := orStr api.name "Unknown"

/-- Record host computed by `_upsert_api`:
`_norm_host(api.get("host") or api.get("base_url") or api.get("baseUrl") or "unknown")`.
The argument of `_norm_host` is always a truthy string here, so its
result is never `None`; the `getD` default is unreachable. -/
def upsertHost (api : Payload) : String :=
  (norm_host (some (orStr api.host (orStr api.base_url (orStr api.baseUrl "unknown"))))).getD ""

/-- Row test for the `UNIQUE(name, host)` conflict target. -/
def keyMatch (name host : String) (r : ApiRow) : Bool :=
  r.name == name && r.host == host

/-- Row written by the plain-`INSERT` path of `_upsert_api`. -/
def insertedRow (api : Payload) (now : String) (newId : ℕ) : ApiRow :=
  { id := newId, name := upsertName api, host := upsertHost api,
    base_url := pyOr api.base_url api.baseUrl,
    description := api.description, category := api.category,
    docs_url := pyOr api.docs_url api.docsUrl,
    openapi_url := pyOr api.openapi_url api.openapiUrl,
    auth := some (orStr api.auth (orStr api.auth_type "none")),
    rate_limit := pyOr api.rate_limit api.rateLimit,
    status := some (orStr api.status "unknown"),
    source := api.source, created_at := now, updated_at := some now }

/-- The `ON CONFLICT(name, host) DO UPDATE` assignment list of
`_upsert_api` applied to an existing row `x`: `base_url` is overwritten
unconditionally, the other fields go through `COALESCE(excluded.x, apis.x)`
(the `excluded` values being what the `INSERT` carried), and `updated_at`
is always refreshed. -/
def mergedRow (api : Payload) (now : String) (x : ApiRow) : ApiRow :=
  { x with base_url := pyOr api.base_url api.baseUrl,
           description := coalesce api.description x.description,
           category := coalesce api.category x.category,
           docs_url := coalesce (pyOr api.docs_url api.docsUrl) x.docs_url,
           openapi_url := coalesce (pyOr api.openapi_url api.openapiUrl) x.openapi_url,
           auth := coalesce (some (orStr api.auth (orStr api.auth_type "none"))) x.auth,
           rate_limit := coalesce (pyOr api.rate_limit api.rateLimit) x.rate_limit,
           status := coalesce (some (orStr api.status "unknown")) x.status,
           source := coalesce api.source x.source,
           updated_at := some now }

/-- Success path of `_upsert_api` (reached only when FTS5 is
unavailable, see `upsert_api`).  `now` stands for `utcnow()`.  The apis
write either inserts (setting the connection rowid to the new record id)
or takes the DO UPDATE path (leaving the connection rowid untouched).
`api_id` is then read as `cur.lastrowid`: the new id on the insert path,
and on the merge path the STALE last-inserted rowid of the connection —
which need not be the id of the merged record; only when it is 0 (virgin
connection) does the `SELECT id FROM apis WHERE name=? AND host=?`
fallback recover the true id.  The embedding and any endpoints are then
upserted under that `api_id`, updating the connection rowid as each
statement does. -/
noncomputable def upsert_api_run (st : DbState) (api : Payload) (now : String) :
    DbState × ℕ :=
  let name := upsertName api
  let host := upsertHost api
  let (apis2, nextId2, lrA, apiId) :=
    match st.apis.find? (keyMatch name host) with
    | none =>
      (st.apis ++ [insertedRow api now st.next_id], st.next_id + 1, st.next_id, st.next_id)
    | some r =>
      (st.apis.map (fun x => if keyMatch name host x then mergedRow api now x else x),
       st.next_id, st.last_rowid,
       if st.last_rowid == 0 then r.id else st.last_rowid)
  let (emb2, lrB) := upsertEmbeddingLr st.embeddings apiId name (orStr api.description "") lrA
  let st2 : DbState :=
    { st with apis := apis2, next_id := nextId2, embeddings := emb2, last_rowid := lrB }
  let st3 :=
    if api.endpoints.isEmpty then st2
    else
      let epl := upsertEndpointsRowsLr st2.endpoints apiId api.endpoints lrB
      { st2 with endpoints := epl.1, last_rowid := epl.2 }
  (st3, apiId)

/-- Model of `_upsert_api`.  When FTS5 is available, the statement
`INSERT INTO apis_fts(...) VALUES(...) ON CONFLICT(rowid) DO UPDATE ...`
is refused by SQLite at prepare time — UPSERT is not implemented for
virtual tables (verified on 3.40.1) — so EVERY call raises
`sqlite3.OperationalError` after the apis write but before the
embedding and endpoint writes and before any commit; the committed
database is unchanged, which the model renders by returning the error
alone.  (The uncommitted apis write would become visible only if a later
operation on the same connection committed; that leak is outside this
model.)  When FTS5 is unavailable the fts branch is skipped and the call
completes as `upsert_api_run`. -/
noncomputable def upsert_api (st : DbState) (api : Payload) (now : String) :
    Except DbError (DbState × ℕ) :=
  if st.fts_available then
    Except.error (DbError.operationalError "UPSERT not implemented for virtual table apis_fts")
  else
    Except.ok (upsert_api_run st api now)

/-! ### Search (`comprehensive_search`, `_text_search`, `_semantic_search`) -/

/-- Case-insensitive substring test: model of a SQL LIKE test against the
pattern percent-query-percent
(SQLite `LIKE` ignores ASCII case); a NULL column gives NULL, which a
`WHERE` treats as false. -/
def likeContains (q : String) (v : Option String) : Bool :=
  match v with
  | none => false
  | some s => containsSub (pyLower q.toList) (pyLower s.toList)

/-- Token bag a full-text entry indexes. -/
def ftsTokens (f : FtsRow) : List (List Char) :=
  tokensOf f.name ++ tokensOf (f.description.getD "") ++ tokensOf (f.category.getD "")

/-- Model of the FTS5 `MATCH` test as token overlap between the query
and the indexed entry (an inverted index over name/description/category). -/
def ftsMatch (query : String) (f : FtsRow) : Bool :=
  (tokensOf query).any (fun t => (ftsTokens f).contains t)

/-- Model of `_text_search`: FTS lookup when available, otherwise the
`LIKE` fallback over name/description/category; capped at `lim`. -/
def text_search (st : DbState) (query : String) (lim : ℕ) : List ApiRow :=
  if st.fts_available then
    (st.apis.filter (fun a =>
      match st.fts.find? (fun f => f.rowid == a.id) with
      | some f => ftsMatch query f
      | none => false)).take lim
  else
    (st.apis.filter (fun a =>
      likeContains query (some a.name) || likeContains query a.description ||
        likeContains query a.category)).take lim

/-- Dot product over the common prefix of two vectors (the sum over
`range(min(len(qv), len(vec)))`). -/
def dotProd (xs ys : List ℝ) : ℝ := (List.zipWith (fun a b => a * b) xs ys).sum

/-- Stable insertion into a list sorted by descending score: the new
element goes after strictly greater scores and before equal ones, which
matches the stable descending Python list sort. -/
noncomputable def insertScoredDesc (x : ℝ × ApiRow) : List (ℝ × ApiRow) → List (ℝ × ApiRow)
  | [] => [x]
  | y :: ys => if x.1 < y.1 then y :: insertScoredDesc x ys else x :: y :: ys

/-- Stable descending sort by score (insertion sort; any stable sort
computes the same list, so this models `list.sort(reverse=True)`). -/
noncomputable def sortScoredDesc : List (ℝ × ApiRow) → List (ℝ × ApiRow)
  | [] => []
  | x :: xs => insertScoredDesc x (sortScoredDesc xs)

/-- The `embeddings JOIN apis ON apis.id = api_id` row list, in
embeddings-table order. -/
def joinEmb (st : DbState) : List (EmbeddingRow × ApiRow) :=
  st.embeddings.filterMap (fun e =>
    (st.apis.find? (fun a => a.id == e.api_id)).map (fun a => (e, a)))

/-- Scored rows of `_semantic_search`: keep a joined row when the dot
product of the query embedding with the stored vector reaches the
threshold. -/
noncomputable def scoredRows (st : DbState) (query : String) (threshold : ℝ) :
    List (ℝ × ApiRow) :=
  (joinEmb st).filterMap (fun p =>
    let score := dotProd (hashing_embed query 256) p.1.vector
    if threshold ≤ score then some (score, p.2) else none)

/-- Model of `_semantic_search`: score, filter by threshold, sort by
descending score, cap at `lim`. -/
noncomputable def semantic_search (st : DbState) (query : String) (lim : ℕ)
    (threshold : ℝ) : List ApiRow :=
  ((sortScoredDesc (scoredRows st query threshold)).take lim).map (fun p => p.2)

/-- Model of `comprehensive_search`: append `(now, query)` to the search
log, then run the text and the semantic lookup; returns the new state
and the two buckets. -/
noncomputable def comprehensive_search (st : DbState) (query : String) (now : String) :
    DbState × List ApiRow × List ApiRow :=
  let st2 := { st with search_log := st.search_log ++ [⟨now, query⟩],
                       last_rowid := st.search_log.length + 1 }
  (st2, text_search st2 query 25, semantic_search st2 query 25 (0.2 : ℝ))

/-! ### `get_stats` -/

/-- Digit test. -/
def isDigitCh (c : Char) : Bool := '0' ≤ c && c ≤ '9'

/-- Model of the SQL expression strftime with format percent-s on `ts`
succeeding, for the timestamp shape
this program writes (`utcnow()`: `YYYY-MM-DDTHH:MM:SSZ`). -/
def tsParses (ts : String) : Bool :=
  match ts.toList with
  | [y1, y2, y3, y4, d1, mo1, mo2, d2, da1, da2, t1, h1, h2, c1, mi1, mi2, c2, s1, s2, z1] =>
    isDigitCh y1 && isDigitCh y2 && isDigitCh y3 && isDigitCh y4 && d1 = '-' &&
      isDigitCh mo1 && isDigitCh mo2 && d2 = '-' && isDigitCh da1 && isDigitCh da2 &&
      t1 = 'T' && isDigitCh h1 && isDigitCh h2 && c1 = ':' && isDigitCh mi1 &&
      isDigitCh mi2 && c2 = ':' && isDigitCh s1 && isDigitCh s2 && z1 = 'Z'
  | _ => false

/-- SQLite value of the expressions compared in the stats query.  The
payload of a TEXT value is omitted: the modelled comparison only ever
meets TEXT-versus-INTEGER, which SQLite decides by storage class alone. -/
inductive SqlVal where
  | vnull
  | vint (n : ℤ)
  | vtext
deriving DecidableEq

/-- Model of the SQL expression strftime with format percent-s on `ts`:
a TEXT epoch string when `ts` parses
as a datetime, NULL otherwise. -/
def strftimeEpoch (ts : String) : SqlVal :=
  if tsParses ts then SqlVal.vtext else SqlVal.vnull

/-- SQLite `>=` between values without column affinity: a NULL operand
yields NULL (false under `WHERE`); otherwise values of distinct storage
classes order by class, INTEGER before TEXT. -/
def sqlGe : SqlVal → SqlVal → Bool
  | SqlVal.vnull, _ => false
  | _, SqlVal.vnull => false
  | SqlVal.vint a, SqlVal.vint b => a ≥ b
  | SqlVal.vtext, SqlVal.vint _ => true
  | SqlVal.vint _, SqlVal.vtext => false
  | SqlVal.vtext, SqlVal.vtext => true

/-- Distinct keys of a list, in order of first appearance. -/
def dedupKeys (l : List String) : List String :=
  l.foldl (fun acc k => if acc.contains k then acc else acc ++ [k]) []

/-- Stable insertion into a count list sorted by descending count. -/
def insertCountDesc (x : String × ℕ) : List (String × ℕ) → List (String × ℕ)
  | [] => [x]
  | y :: ys => if x.2 < y.2 then y :: insertCountDesc x ys else x :: y :: ys

/-- Stable descending sort of `(key, count)` pairs by count. -/
def sortCountsDesc : List (String × ℕ) → List (String × ℕ)
  | [] => []
  | x :: xs => insertCountDesc x (sortCountsDesc xs)

/-- Model of `SELECT COALESCE(k, dflt) AS k, COUNT(*) GROUP BY k ORDER BY
COUNT(*) DESC` over a key list. -/
def groupCountsDesc (keys : List String) : List (String × ℕ) :=
  sortCountsDesc ((dedupKeys keys).map (fun k => (k, keys.count k)))

/-- Result record of `get_stats`. -/
structure Stats where
  total_apis : ℕ
  by_category : List (String × ℕ)
  by_source : List (String × ℕ)
  searches_last_week : ℕ
  recent_searches : List String
deriving DecidableEq

/-- Model of `get_stats`; `nowEpoch` stands for `time.time()`.  The
search-log filter models the comparison of the strftime result with the bound
parameter `int(week_ago)`: a TEXT result compared against an INTEGER. -/
def get_stats (st : DbState) (nowEpoch : ℤ) : Stats :=
  { total_apis := st.apis.length
  , by_category := groupCountsDesc (st.apis.map (fun r => r.category.getD "uncategorized"))
  , by_source := groupCountsDesc (st.apis.map (fun r => r.source.getD "unknown"))
  , searches_last_week :=
      (st.search_log.filter (fun e =>
        sqlGe (strftimeEpoch e.ts) (SqlVal.vint (nowEpoch - 7 * 24 * 3600)))).length
  , recent_searches := (st.search_log.reverse.take 5).map (fun e => e.query) }

/-! ### Export (`dump_json`) and re-ingest -/

/-- Model of one record of `dump_json`: all stored columns under their
column names, plus the endpoint rows of the record. -/
def exportPayload (st : DbState) (r : ApiRow) : Payload :=
  { name := some r.name, host := some r.host, base_url := r.base_url,
    baseUrl := none, description := r.description, category := r.category,
    docs_url := r.docs_url, docsUrl := none, openapi_url := r.openapi_url,
    openapiUrl := none, auth := r.auth, auth_type := none,
    rate_limit := r.rate_limit, rateLimit := none, status := r.status,
    source := r.source,
    endpoints := (st.endpoints.filter (fun e => e.api_id == r.id)).map
      (fun e => ⟨some e.method, some e.path, e.description⟩) }

/-- Model of `dump_json` / `export_all`: every record with its endpoint
list attached. -/
def dump_json (st : DbState) : List Payload := st.apis.map (exportPayload st)

/-- Effect of one ingest attempt on the committed database: the new
state on success, the unchanged state when `_upsert_api` raises (nothing
was committed). -/
noncomputable def applyIngest (st : DbState) (p : Payload) (now : String) : DbState :=
  match upsert_api st p now with
  | Except.ok res => res.1
  | Except.error _ => st

/-- Ingest a list of payloads in order. -/
noncomputable def ingestAll (st : DbState) (ps : List Payload) (now : String) : DbState :=
  ps.foldl (fun s p => applyIngest s p now) st

/-- Run a timed sequence of ingest attempts from a fresh database. -/
noncomputable def runIngests (fa : Bool) (ps : List (Payload × String)) : DbState :=
  ps.foldl (fun s pn => applyIngest s pn.1 pn.2) (emptyDb fa)

/-! ### Concrete payloads and states used by the claim theorems -/

/-- First lookup of a record by its `(name, host)` key. -/
def findByKey (l : List ApiRow) (name host : String) : Option ApiRow :=
  l.find? (keyMatch name host)

/-- Payload carrying only identity plus a base URL and a description. -/
def pFull : Payload :=
  { emptyPayload with name := some "A", host := some "h",
                      base_url := some "http://old/x", description := some "old" }

/-- Payload carrying only the identity key `("A", "h")`. -/
def pKeyOnly : Payload :=
  { emptyPayload with name := some "A", host := some "h" }

/-- Payload with identity and a description. -/
def pDescribed : Payload :=
  { emptyPayload with name := some "A", host := some "h",
                      description := some "old desc" }

/-- Payload whose host is a single blank, which normalises to `""`. -/
def pBlankHost : Payload :=
  { emptyPayload with name := some "A", host := some " " }

/-- Payload with one endpoint entry whose method and path are absent. -/
def pBareEndpoint : Payload :=
  { emptyPayload with name := some "A", host := some "h",
                      endpoints := [⟨none, none, some "d"⟩] }

/-- Fully populated record used by witnesses. -/
def rowOne : ApiRow :=
  { id := 1, name := "A", host := "h", base_url := some "http://old/x",
    description := some "old", category := some "cat",
    docs_url := some "du", openapi_url := some "ou", auth := some "apiKey",
    rate_limit := some "rl", status := some "live", source := some "seed",
    created_at := "t0", updated_at := some "t0" }

/-- One-row database used by witnesses (FTS5 unavailable, connection
rowid 1 from the insert of `rowOne`). -/
def stOneRow : DbState :=
  { apis := [rowOne],
    endpoints := [⟨1, "GET", "/a", some "d0"⟩],
    embeddings := [], fts := [], search_log := [],
    fts_available := false, next_id := 2, last_rowid := 1 }

/-- Payload whose name has no alphanumeric token, with a description. -/
def pBangFull : Payload :=
  { emptyPayload with name := some "!!!", host := some "h",
                      description := some "Space data" }

/-- Key-only payload matching `pBangFull`. -/
def pBangKey : Payload :=
  { emptyPayload with name := some "!!!", host := some "h" }

/-! ## Helper lemmas -/

theorem orStr_of_not_truthy {a : Option String} {d : String} (h : truthy a = false) :
    orStr a d = d := by
  cases a with
  | none => rfl
  | some s =>
    simp only [truthy, decide_eq_false_iff_not, not_not] at h
    simp [orStr, h]

theorem orStr_of_truthy {a : Option String} {d : String} {s : String}
    (ha : a = some s) (h : s ≠ "") : orStr a d = s := by
  subst ha
  simp [orStr, h]

theorem upsertEndpointsRowsLr_fst (l : List EndpointRow) (apiId : ℕ) (eps : List EpPayload)
    (lr : ℕ) :
    (upsertEndpointsRowsLr l apiId eps lr).1 = upsertEndpointsRows l apiId eps := by
  induction eps generalizing l lr with
  | nil => rfl
  | cons b bs ih =>
    unfold upsertEndpointsRowsLr upsertEndpointsRows
    rw [List.foldl_cons, List.foldl_cons]
    exact ih _ _

theorem upsert_api_fts_error (st : DbState) (p : Payload) (now : String)
    (h : st.fts_available = true) :
    upsert_api st p now =
      Except.error (DbError.operationalError
        "UPSERT not implemented for virtual table apis_fts") := by
  rw [upsert_api, if_pos h]

theorem upsert_api_no_fts (st : DbState) (p : Payload) (now : String)
    (h : st.fts_available = false) :
    upsert_api st p now = Except.ok (upsert_api_run st p now) := by
  rw [upsert_api, if_neg (by rw [h]; exact Bool.false_ne_true)]

theorem applyIngest_no_fts (st : DbState) (p : Payload) (now : String)
    (h : st.fts_available = false) :
    applyIngest st p now = (upsert_api_run st p now).1 := by
  unfold applyIngest
  rw [upsert_api_no_fts st p now h]

theorem applyIngest_fts (st : DbState) (p : Payload) (now : String)
    (h : st.fts_available = true) :
    applyIngest st p now = st := by
  unfold applyIngest
  rw [upsert_api_fts_error st p now h]

theorem upsert_api_run_apis (st : DbState) (p : Payload) (now : String) :
    (upsert_api_run st p now).1.apis =
      (match st.apis.find? (keyMatch (upsertName p) (upsertHost p)) with
       | none => st.apis ++ [insertedRow p now st.next_id]
       | some _ =>
         st.apis.map (fun x =>
           if keyMatch (upsertName p) (upsertHost p) x then mergedRow p now x else x)) := by
  rcases h : st.apis.find? (keyMatch (upsertName p) (upsertHost p)) with _ | r <;>
    simp only [upsert_api_run, h] <;> split <;> rfl

theorem upsert_api_run_id (st : DbState) (p : Payload) (now : String) :
    (upsert_api_run st p now).2 =
      (match st.apis.find? (keyMatch (upsertName p) (upsertHost p)) with
       | none => st.next_id
       | some r => if st.last_rowid == 0 then r.id else st.last_rowid) := by
  rcases h : st.apis.find? (keyMatch (upsertName p) (upsertHost p)) with _ | r <;>
    simp only [upsert_api_run, h] <;> split <;> rfl

theorem upsert_api_run_embeddings (st : DbState) (p : Payload) (now : String) :
    (upsert_api_run st p now).1.embeddings =
      upsertEmbedding st.embeddings (upsert_api_run st p now).2 (upsertName p)
        (orStr p.description "") := by
  rcases h : st.apis.find? (keyMatch (upsertName p) (upsertHost p)) with _ | r <;>
    simp only [upsert_api_run, h] <;> split <;> rfl

theorem upsert_api_run_endpoints (st : DbState) (p : Payload) (now : String) :
    (upsert_api_run st p now).1.endpoints =
      (if p.endpoints.isEmpty then st.endpoints
       else upsertEndpointsRows st.endpoints (upsert_api_run st p now).2 p.endpoints) := by
  rcases h : st.apis.find? (keyMatch (upsertName p) (upsertHost p)) with _ | r <;>
    simp only [upsert_api_run, h] <;> split <;>
    simp only [upsertEndpointsRowsLr_fst] <;> rfl

theorem upsert_api_run_fts (st : DbState) (p : Payload) (now : String) :
    (upsert_api_run st p now).1.fts = st.fts := by
  rcases h : st.apis.find? (keyMatch (upsertName p) (upsertHost p)) with _ | r <;>
    simp only [upsert_api_run, h] <;> split <;> rfl

theorem upsert_api_run_fa (st : DbState) (p : Payload) (now : String) :
    (upsert_api_run st p now).1.fts_available = st.fts_available := by
  rcases h : st.apis.find? (keyMatch (upsertName p) (upsertHost p)) with _ | r <;>
    simp only [upsert_api_run, h] <;> split <;> rfl

theorem upsert_api_run_search_log (st : DbState) (p : Payload) (now : String) :
    (upsert_api_run st p now).1.search_log = st.search_log := by
  rcases h : st.apis.find? (keyMatch (upsertName p) (upsertHost p)) with _ | r <;>
    simp only [upsert_api_run, h] <;> split <;> rfl

/-! ## Claim C8 -/

/-- Claim C8 counterexample: the input `"Example.COM/path"` is non-empty
and carries a path, yet `_norm_host` returns `"example.com/path"` — the
path is not stripped (no `://` in the input), so the result is not the
hostname `"example.com"` the claim requires. -/
theorem norm_host_keeps_path_without_scheme :
    norm_host (some "Example.COM/path") = some "example.com/path" ∧
    norm_host (some "Example.COM/path") ≠ some "example.com" := by
  constructor <;> decide

/-- Claim C8 (amended): `_norm_host` maps `None` and `""` to the absent
value; any other input is first stripped; if it contains `://`, a leading
`http://` or `https://` is removed, the remainder is cut at the first
slash and lowercased (for a non-http scheme this leaves the scheme
fragment, not a hostname); if it does not contain `://` the whole
stripped input is merely lowercased — no path stripping happens.  The
function is total, so it never raises. -/
theorem norm_host_spec (s : String) (hs : s ≠ "") :
    norm_host none = none ∧
    norm_host (some "") = none ∧
    (containsSchemeSep (pyStrip s.toList) = true →
      norm_host (some s) =
        some (String.mk (pyLower (firstSegment (stripHttpScheme (pyStrip s.toList)))))) ∧
    (containsSchemeSep (pyStrip s.toList) = false →
      norm_host (some s) = some (String.mk (pyLower (pyStrip s.toList)))) := by
  refine ⟨rfl, rfl, ?_, ?_⟩ <;> intro h <;> simp only [String.toList] at h <;>
    simp [norm_host, hs, h]

/-- Claim C8 witness: the amended theorem applied to the concrete URL
`"https://API.nasa.gov/path/x"` (scheme branch) and, separately
instantiated, to `"Example.COM/path"` (no-`://` branch). -/
theorem norm_host_spec_witness :
    norm_host (some "https://API.nasa.gov/path/x") = some "api.nasa.gov" ∧
    norm_host (some "Example.COM/path") = some "example.com/path" := by
  constructor
  · have h := (norm_host_spec "https://API.nasa.gov/path/x" (by decide)).2.2.1 (by decide)
    rw [h]; decide
  · have h := (norm_host_spec "Example.COM/path" (by decide)).2.2.2 (by decide)
    rw [h]; decide

/-! ## Claim C7 -/

/-- Claim C7: every `comprehensive_search` call appends exactly one
`(now, query)` entry to the search log — also when both result buckets
are empty, since the statement is unconditional in the query and state —
and nothing else in the database changes: records, endpoints, embeddings,
the full-text index, the FTS flag and the id counter are untouched. -/
theorem comprehensive_search_frame (st : DbState) (q now : String) :
    (comprehensive_search st q now).1.search_log = st.search_log ++ [⟨now, q⟩] ∧
    (comprehensive_search st q now).1.apis = st.apis ∧
    (comprehensive_search st q now).1.endpoints = st.endpoints ∧
    (comprehensive_search st q now).1.embeddings = st.embeddings ∧
    (comprehensive_search st q now).1.fts = st.fts ∧
    (comprehensive_search st q now).1.fts_available = st.fts_available ∧
    (comprehensive_search st q now).1.next_id = st.next_id :=
  ⟨rfl, rfl, rfl, rfl, rfl, rfl, rfl⟩

/-! ## Claim C6 -/

/-- Claim C6 (code bug): the 7-day window of `get_stats` never filters.
With `now` = 2026-10-12 (epoch 1760227200) a single log entry stamped
2000-01-01 — over 26 years old — is still counted in
`searches_last_week`, because the strftime expression yields a TEXT value
and SQLite orders any TEXT above any INTEGER, so the comparison with the
integer cutoff parameter is always true; the claim requires the count to
be 0 here.  The remaining fields behave as claimed at this input. -/
theorem get_stats_counts_stale_entry :
    (get_stats { emptyDb true with
        search_log := [⟨"2000-01-01T00:00:00Z", "old"⟩] } 1760227200).searches_last_week = 1 ∧
    (get_stats { emptyDb true with
        search_log := [⟨"2000-01-01T00:00:00Z", "old"⟩] } 1760227200).recent_searches = ["old"] ∧
    (get_stats { emptyDb true with
        search_log := [⟨"2000-01-01T00:00:00Z", "old"⟩] } 1760227200).total_apis = 0 := by
  refine ⟨?_, ?_, ?_⟩ <;> decide

/-! ## Claim C3 -/

theorem keyMatch_iff {n h : String} {r : ApiRow} :
    keyMatch n h r = true ↔ r.name = n ∧ r.host = h := by
  simp [keyMatch]

set_option maxRecDepth 10000 in
/-- Claim C3 counterexample: ingesting the empty payload `{}` — both
identity fields absent — raises no ValidationError; on an FTS-less
database, where the ingest can complete at all, it inserts a record
whose identity was silently defaulted to `("Unknown", "unknown")`, while
the claim requires a `ValidationError` and no write. -/
theorem upsert_api_accepts_empty_payload :
    (emptyDb false).apis = [] ∧
    ((applyIngest (emptyDb false) emptyPayload "t").apis.map (fun r => (r.name, r.host)))
      = [("Unknown", "unknown")] := by
  constructor <;> decide

/-- Claim C3 (amended): `_upsert_api` raises no ValidationError for a
payload with absent or empty identity fields — when it fails it is only
with the unrelated FTS5 OperationalError, excluded here by requiring
FTS5 unavailable, so the call completes.  It substitutes the defaults —
name `"Unknown"`, host `"unknown"` (from the literal fallback, since
base URLs are also absent) — and performs the write: afterwards a record
with exactly that defaulted identity is present. -/
theorem upsert_api_defaults_missing_identity (st : DbState) (p : Payload) (now : String)
    (hfa : st.fts_available = false)
    (h1 : truthy p.name = false) (h2 : truthy p.host = false)
    (h3 : truthy p.base_url = false) (h4 : truthy p.baseUrl = false) :
    upsert_api st p now = Except.ok (upsert_api_run st p now) ∧
    ∃ r ∈ (upsert_api_run st p now).1.apis, r.name = "Unknown" ∧ r.host = "unknown" := by
  refine ⟨upsert_api_no_fts st p now hfa, ?_⟩
  have hn : upsertName p = "Unknown" := orStr_of_not_truthy h1
  have hh : upsertHost p = "unknown" := by
    unfold upsertHost
    rw [orStr_of_not_truthy h2, orStr_of_not_truthy h3, orStr_of_not_truthy h4]
    decide
  rcases hf : st.apis.find? (keyMatch (upsertName p) (upsertHost p)) with _ | r
  · refine ⟨insertedRow p now st.next_id, ?_, ?_, ?_⟩
    · rw [upsert_api_run_apis, hf]
      simp
    · simp [insertedRow, hn]
    · simp [insertedRow, hh]
  · have hr : keyMatch (upsertName p) (upsertHost p) r = true := List.find?_some hf
    have hrm : r ∈ st.apis := List.mem_of_find?_eq_some hf
    refine ⟨mergedRow p now r, ?_, ?_, ?_⟩
    · rw [upsert_api_run_apis, hf]
      have := List.mem_map_of_mem
        (fun x => if keyMatch (upsertName p) (upsertHost p) x then mergedRow p now x else x) hrm
      simpa [hr] using this
    · have := (keyMatch_iff.mp hr).1
      simp [mergedRow, this, hn]
    · have := (keyMatch_iff.mp hr).2
      simp [mergedRow, this, hh]

/-- Claim C3 witness: the amended theorem applied to the empty payload
over the one-row FTS-less database; the FTS hypothesis and all four
falsy-field hypotheses hold by computation. -/
theorem upsert_api_defaults_missing_identity_witness :
    upsert_api stOneRow emptyPayload "t" =
      Except.ok (upsert_api_run stOneRow emptyPayload "t") ∧
    ∃ r ∈ (upsert_api_run stOneRow emptyPayload "t").1.apis,
      r.name = "Unknown" ∧ r.host = "unknown" :=
  upsert_api_defaults_missing_identity stOneRow emptyPayload "t"
    (by decide) (by decide) (by decide) (by decide) (by decide)

/-! ## Claim C1 (counterexample) -/

set_option maxRecDepth 10000 in
/-- Claim C1 counterexample (an FTS-less trace, so both ingests
complete): a record is stored with `base_url = "http://old/x"`; a second
ingest under the same key that omits `base_url` resets the stored value
to NULL, while the claim requires omitted fields to preserve the stored
value. -/
theorem upsert_api_nulls_base_url :
    ((applyIngest (emptyDb false) pFull "t1").apis.map (fun r => r.base_url))
      = [some "http://old/x"] ∧
    ((applyIngest (applyIngest (emptyDb false) pFull "t1") pKeyOnly "t2").apis.map
      (fun r => r.base_url)) = [none] := by
  constructor <;> decide

/-! ## Claim C9 (counterexample) -/

set_option maxRecDepth 10000 in
/-- Claim C9 counterexample: ingesting a record whose host is a single
blank stores host `""`; exporting and re-ingesting that record does not
reproduce the catalog — the empty host is falsy, so re-ingest falls back
to host `"unknown"` and inserts a second record (1 record before, 2
after), while the claim requires the record count to be preserved. -/
theorem export_reingest_duplicates_blank_host :
    (applyIngest (emptyDb false) pBlankHost "t1").apis.length = 1 ∧
    (ingestAll (applyIngest (emptyDb false) pBlankHost "t1")
      (dump_json (applyIngest (emptyDb false) pBlankHost "t1")) "t2").apis.length = 2 := by
  constructor <;> decide

/-! ## Claim C1 (amended theorem) -/

theorem find?_map_update {l : List ApiRow} {q : ApiRow → Bool} {f : ApiRow → ApiRow} {r : ApiRow}
    (hq : ∀ x, q (f x) = q x) (hf : l.find? q = some r) :
    (l.map (fun x => if q x then f x else x)).find? q = some (f r) := by
  induction l with
  | nil => simp at hf
  | cons a as ih =>
    by_cases ha : q a = true
    · rw [List.find?_cons_of_pos _ ha] at hf
      injection hf with h1
      subst h1
      simp only [List.map_cons, if_pos ha]
      exact List.find?_cons_of_pos _ ((hq a).trans ha)
    · rw [List.find?_cons_of_neg _ ha] at hf
      simp only [List.map_cons, if_neg ha]
      rw [List.find?_cons_of_neg _ ha]
      exact ih hf

set_option maxRecDepth 2000 in
/-- Claim C1 (amended): when FTS5 is unavailable, so that the ingest
completes at all (with FTS5 available every `_upsert_api` raises
OperationalError at the `apis_fts` statement and commits nothing),
re-ingesting a payload with the key of an existing record merges as
follows.  `updated_at` always refreshes, and identity, id and
`created_at` are preserved.  For `description`, `category`, `docs_url`,
`openapi_url`, `rate_limit` and `source` the incoming bound value
overwrites when non-NULL and preserves the stored value when NULL — note
an explicit empty-string `description`/`category` is non-NULL and
therefore overwrites.  `base_url` is overwritten unconditionally with
the incoming value, so an omitted base URL nulls the stored one.  `auth`
and `status` are always rebuilt from the payload, falling back to
`"none"`/`"unknown"` when absent or empty, so an omission resets them to
their defaults. -/
theorem upsert_api_merge_policy (st : DbState) (p : Payload) (now : String) (r : ApiRow)
    (hfa : st.fts_available = false)
    (hfind : findByKey st.apis (upsertName p) (upsertHost p) = some r) :
    upsert_api st p now = Except.ok (upsert_api_run st p now) ∧
    ∃ r2, findByKey (upsert_api_run st p now).1.apis (upsertName p) (upsertHost p) = some r2 ∧
      r2.id = r.id ∧ r2.name = r.name ∧ r2.host = r.host ∧ r2.created_at = r.created_at ∧
      r2.updated_at = some now ∧
      r2.base_url = pyOr p.base_url p.baseUrl ∧
      (p.description = none → r2.description = r.description) ∧
      (∀ s, p.description = some s → r2.description = some s) ∧
      (p.category = none → r2.category = r.category) ∧
      (∀ s, p.category = some s → r2.category = some s) ∧
      (pyOr p.docs_url p.docsUrl = none → r2.docs_url = r.docs_url) ∧
      (∀ s, pyOr p.docs_url p.docsUrl = some s → r2.docs_url = some s) ∧
      (pyOr p.openapi_url p.openapiUrl = none → r2.openapi_url = r.openapi_url) ∧
      (∀ s, pyOr p.openapi_url p.openapiUrl = some s → r2.openapi_url = some s) ∧
      (pyOr p.rate_limit p.rateLimit = none → r2.rate_limit = r.rate_limit) ∧
      (∀ s, pyOr p.rate_limit p.rateLimit = some s → r2.rate_limit = some s) ∧
      (p.source = none → r2.source = r.source) ∧
      (∀ s, p.source = some s → r2.source = some s) ∧
      r2.auth = some (orStr p.auth (orStr p.auth_type "none")) ∧
      r2.status = some (orStr p.status "unknown") := by
  refine ⟨upsert_api_no_fts st p now hfa, ?_⟩
  unfold findByKey at hfind ⊢
  have hq : ∀ x, keyMatch (upsertName p) (upsertHost p) (mergedRow p now x) =
      keyMatch (upsertName p) (upsertHost p) x := by
    intro x
    simp [keyMatch, mergedRow]
  refine ⟨mergedRow p now r, ?_, ?_⟩
  · rw [upsert_api_run_apis, hfind]
    exact find?_map_update hq hfind
  · refine ⟨by simp [mergedRow], by simp [mergedRow], by simp [mergedRow],
      by simp [mergedRow], by simp [mergedRow], by simp [mergedRow], ?_, ?_, ?_, ?_,
      ?_, ?_, ?_, ?_, ?_, ?_, ?_, ?_, by simp [mergedRow, coalesce], by simp [mergedRow, coalesce]⟩ <;>
      first
        | (intro hd; simp [mergedRow, coalesce, hd])
        | (intro s hs; simp [mergedRow, coalesce, hs])

set_option maxRecDepth 10000 in
/-- Claim C1 witness: the amended merge theorem applied to the one-row
FTS-less database and the key-only payload; the FTS and key-lookup
hypotheses hold by computation, and the merged row refreshes
`updated_at` while `base_url` becomes NULL. -/
theorem upsert_api_merge_policy_witness :
    ∃ r2, findByKey (upsert_api_run stOneRow pKeyOnly "t2").1.apis
        (upsertName pKeyOnly) (upsertHost pKeyOnly) = some r2 ∧
      r2.updated_at = some "t2" ∧ r2.base_url = none := by
  obtain ⟨r2, hfind2, rest⟩ :=
    (upsert_api_merge_policy stOneRow pKeyOnly "t2" rowOne (by decide) (by decide)).2
  refine ⟨r2, hfind2, rest.2.2.2.2.1, ?_⟩
  rw [rest.2.2.2.2.2.1]
  decide

/-! ## Claim C10 -/

theorem upsertEndpointRow_key_present (l : List EndpointRow) (row : EndpointRow) :
    ∃ e ∈ upsertEndpointRow l row,
      e.api_id = row.api_id ∧ e.method = row.method ∧ e.path = row.path := by
  unfold upsertEndpointRow
  by_cases h : l.any (fun e =>
      e.api_id == row.api_id && e.method == row.method && e.path == row.path) = true
  · rw [if_pos h]
    obtain ⟨e, he, hkey⟩ := List.any_eq_true.mp h
    refine ⟨{ e with description := row.description }, ?_, ?_, ?_, ?_⟩
    · have := List.mem_map_of_mem (fun x =>
        if x.api_id == row.api_id && x.method == row.method && x.path == row.path then
          { x with description := row.description } else x) he
      simpa [hkey] using this
    all_goals
      simp only [Bool.and_eq_true, beq_iff_eq] at hkey
    · exact hkey.1.1
    · exact hkey.1.2
    · exact hkey.2
  · rw [if_neg h]
    exact ⟨row, by simp, rfl, rfl, rfl⟩

theorem upsertEndpointRow_key_mono {l : List EndpointRow} {a : ℕ} {m pa : String}
    (h : ∃ e ∈ l, e.api_id = a ∧ e.method = m ∧ e.path = pa) (row : EndpointRow) :
    ∃ e ∈ upsertEndpointRow l row, e.api_id = a ∧ e.method = m ∧ e.path = pa := by
  obtain ⟨e, he, h1, h2, h3⟩ := h
  unfold upsertEndpointRow
  by_cases hc : l.any (fun e =>
      e.api_id == row.api_id && e.method == row.method && e.path == row.path) = true
  · rw [if_pos hc]
    by_cases hk : (e.api_id == row.api_id && e.method == row.method && e.path == row.path) = true
    · refine ⟨{ e with description := row.description }, ?_, h1, h2, h3⟩
      have := List.mem_map_of_mem (fun x =>
        if x.api_id == row.api_id && x.method == row.method && x.path == row.path then
          { x with description := row.description } else x) he
      simpa [hk] using this
    · refine ⟨e, ?_, h1, h2, h3⟩
      have := List.mem_map_of_mem (fun x =>
        if x.api_id == row.api_id && x.method == row.method && x.path == row.path then
          { x with description := row.description } else x) he
      simpa [hk] using this
  · rw [if_neg hc]
    exact ⟨e, List.mem_append_left _ he, h1, h2, h3⟩

theorem upsertEndpointsRows_key_mono {l : List EndpointRow} {a : ℕ} {m pa : String}
    (h : ∃ e ∈ l, e.api_id = a ∧ e.method = m ∧ e.path = pa)
    (apiId : ℕ) (eps : List EpPayload) :
    ∃ e ∈ upsertEndpointsRows l apiId eps, e.api_id = a ∧ e.method = m ∧ e.path = pa := by
  induction eps generalizing l with
  | nil => exact h
  | cons b bs ih =>
    exact ih (upsertEndpointRow_key_mono h (epRow apiId b))

theorem upsertEndpointsRows_mem {eps : List EpPayload} {ep : EpPayload}
    (l : List EndpointRow) (apiId : ℕ) (h : ep ∈ eps) :
    ∃ e ∈ upsertEndpointsRows l apiId eps,
      e.api_id = apiId ∧ e.method = pyUpperS (orStr ep.method "GET") ∧
        e.path = orStr ep.path "/" := by
  induction eps generalizing l with
  | nil => cases h
  | cons b bs ih =>
    rcases List.mem_cons.mp h with hb | h2
    · subst hb
      have h0 := upsertEndpointRow_key_present l (epRow apiId ep)
      exact upsertEndpointsRows_key_mono h0 apiId bs
    · exact ih (upsertEndpointRow l (epRow apiId b)) h2

/-- Claim C10 counterexample: with FTS5 available — which `_check_fts5`
reports on this SQLite build — every ingest raises OperationalError at
the `apis_fts` statement before `_upsert_endpoints` runs, so a payload
endpoint entry IS dropped rather than stored: ingesting a payload that
carries one endpoint into the fresh FTS-enabled database errors and the
endpoints table stays empty, contradicting the never-skipped claim. -/
theorem endpoints_skipped_when_fts_available :
    upsert_api (emptyDb true) pBareEndpoint "t" =
      Except.error (DbError.operationalError
        "UPSERT not implemented for virtual table apis_fts") ∧
    (emptyDb true).endpoints = [] ∧ pBareEndpoint.endpoints ≠ [] := by
  refine ⟨rfl, rfl, by decide⟩

/-- Claim C10 (amended): when FTS5 is unavailable — so that the ingest
completes instead of raising at the `apis_fts` statement — every
endpoint entry of the payload is stored, never rejected or skipped, with
its method defaulted to `"GET"` when absent or empty and always
uppercased, and its path defaulted to `"/"` when absent or empty; the
row is attached to the api id the call returns (on the merge path the
stale connection rowid, see `upsert_api_run`). -/
theorem upsert_api_stores_every_endpoint (st : DbState) (p : Payload) (now : String)
    (ep : EpPayload) (hfa : st.fts_available = false) (h : ep ∈ p.endpoints) :
    upsert_api st p now = Except.ok (upsert_api_run st p now) ∧
    ∃ e ∈ (upsert_api_run st p now).1.endpoints,
      e.api_id = (upsert_api_run st p now).2 ∧
      e.method = pyUpperS (orStr ep.method "GET") ∧
      e.path = orStr ep.path "/" ∧
      ((ep.method = none ∨ ep.method = some "") → e.method = "GET") ∧
      ((ep.path = none ∨ ep.path = some "") → e.path = "/") := by
  refine ⟨upsert_api_no_fts st p now hfa, ?_⟩
  rw [upsert_api_run_endpoints]
  have hne : p.endpoints.isEmpty = false := by
    cases hc : p.endpoints with
    | nil => rw [hc] at h; cases h
    | cons b bs => rfl
  rw [hne]
  simp only [Bool.false_eq_true, if_false]
  obtain ⟨e, he, h1, h2, h3⟩ :=
    upsertEndpointsRows_mem st.endpoints (upsert_api_run st p now).2 h
  refine ⟨e, he, h1, h2, h3, ?_, ?_⟩
  · rintro (hm | hm) <;> rw [h2, hm] <;> decide
  · rintro (hp | hp) <;> rw [h3, hp] <;> decide

set_option maxRecDepth 10000 in
/-- Claim C10 witness: the amended theorem applied over the FTS-less
one-row database to the payload carrying one endpoint entry with absent
method and path: the stored row has method `"GET"` and path `"/"`. -/
theorem upsert_api_stores_every_endpoint_witness :
    ∃ e ∈ (upsert_api_run stOneRow pBareEndpoint "t").1.endpoints,
      e.api_id = (upsert_api_run stOneRow pBareEndpoint "t").2 ∧
      e.method = "GET" ∧ e.path = "/" := by
  obtain ⟨_, e, he, h1, _, _, h4, h5⟩ :=
    upsert_api_stores_every_endpoint stOneRow pBareEndpoint "t" ⟨none, none, some "d"⟩
      (by decide) (by decide)
  exact ⟨e, he, h1, h4 (Or.inl rfl), h5 (Or.inl rfl)⟩

/-! ## Claim C5 -/

theorem bumpAt_length (l : List ℕ) (i : ℕ) : (bumpAt l i).length = l.length := by
  induction l generalizing i with
  | nil => rfl
  | cons x xs ih =>
    cases i with
    | zero => rfl
    | succ j => simp [bumpAt, ih]

theorem bumpAt_sum {l : List ℕ} {i : ℕ} (h : i < l.length) :
    (bumpAt l i).sum = l.sum + 1 := by
  induction l generalizing i with
  | nil => cases h
  | cons x xs ih =>
    cases i with
    | zero => simp [bumpAt]; omega
    | succ j =>
      have hj : j < xs.length := by simpa using h
      simp [bumpAt, ih hj]; omega

theorem foldl_bump_length (toks : List (List Char)) (v : List ℕ) :
    (toks.foldl (fun v t => bumpAt v (bucket 256 t)) v).length = v.length := by
  induction toks generalizing v with
  | nil => rfl
  | cons t ts ih => rw [List.foldl_cons, ih, bumpAt_length]

theorem foldl_bump_sum (toks : List (List Char)) (v : List ℕ) (hv : v.length = 256) :
    (toks.foldl (fun v t => bumpAt v (bucket 256 t)) v).sum = v.sum + toks.length := by
  induction toks generalizing v with
  | nil => simp
  | cons t ts ih =>
    have hb : bucket 256 t < v.length := by
      rw [hv]; exact Nat.mod_lt _ (by decide)
    rw [List.foldl_cons, ih _ (by rw [bumpAt_length, hv]), bumpAt_sum hb]
    rw [List.length_cons]
    omega

theorem rawCounts_length (T : String) : (rawCounts 256 T).length = 256 := by
  unfold rawCounts
  rw [foldl_bump_length, List.length_replicate]

theorem rawCounts_sum (T : String) : (rawCounts 256 T).sum = (tokensOf T).length := by
  unfold rawCounts
  rw [foldl_bump_sum _ _ (List.length_replicate 256 0), List.sum_replicate, smul_zero,
    zero_add]

theorem sumSq_cons (x : ℝ) (v : List ℝ) : sumSq (x :: v) = x * x + sumSq v := by
  simp [sumSq]

theorem sumSq_nonneg (v : List ℝ) : 0 ≤ sumSq v := by
  induction v with
  | nil => simp [sumSq]
  | cons x xs ih =>
    rw [sumSq_cons]
    exact add_nonneg (mul_self_nonneg x) ih

theorem sumSq_cast_pos {l : List ℕ} (h : 0 < l.sum) :
    0 < sumSq (l.map (fun n : ℕ => (n : ℝ))) := by
  induction l with
  | nil => simp at h
  | cons x xs ih =>
    rw [List.map_cons, sumSq_cons]
    rcases Nat.eq_zero_or_pos x with hx | hx
    · subst hx
      have hxs : 0 < xs.sum := by simpa using h
      simpa using ih hxs
    · have h1 : (1 : ℝ) ≤ (x : ℝ) := by exact_mod_cast hx
      have h2 := sumSq_nonneg (xs.map (fun n : ℕ => (n : ℝ)))
      nlinarith

theorem sumSq_map_div (v : List ℝ) (n : ℝ) :
    sumSq (v.map (fun x => x / n)) = sumSq v / (n * n) := by
  induction v with
  | nil => simp [sumSq]
  | cons x xs ih =>
    rw [List.map_cons, sumSq_cons, sumSq_cons, ih, div_mul_div_comm, add_div]

theorem sumSq_replicate_zero (n : ℕ) : sumSq (List.replicate n (0 : ℝ)) = 0 := by
  induction n with
  | zero => rfl
  | succ k ih =>
    rw [List.replicate_succ, sumSq_cons, ih]
    ring

theorem hashing_embed_norm_one (T : String) (h : tokensOf T ≠ []) :
    Real.sqrt (sumSq (hashing_embed T 256)) = 1 := by
  have hsumtok : 0 < (rawCounts 256 T).sum := by
    rw [rawCounts_sum]
    exact List.length_pos.mpr h
  have hpos : 0 < sumSq ((rawCounts 256 T).map (fun n : ℕ => (n : ℝ))) :=
    sumSq_cast_pos hsumtok
  have hnorm0 : 0 < Real.sqrt (sumSq ((rawCounts 256 T).map (fun n : ℕ => (n : ℝ)))) :=
    Real.sqrt_pos.mpr hpos
  simp only [hashing_embed, if_neg h, if_neg (ne_of_gt hnorm0)]
  rw [sumSq_map_div]
  have hmul : Real.sqrt (sumSq ((rawCounts 256 T).map (fun n : ℕ => (n : ℝ)))) *
      Real.sqrt (sumSq ((rawCounts 256 T).map (fun n : ℕ => (n : ℝ)))) =
      sumSq ((rawCounts 256 T).map (fun n : ℕ => (n : ℝ))) := by
    rw [← pow_two, Real.sq_sqrt (le_of_lt hpos)]
  rw [hmul, div_self (ne_of_gt hpos), Real.sqrt_one]

/-- Claim C5: `_hashing_embed` at its fixed dimension 256 returns a
vector of length 256 that is all-zero exactly when the (lowercased) text
contains no `[a-z0-9]` token, has Euclidean norm exactly 1 otherwise
(the float version is within floating tolerance of this real value), and
is deterministic — the same text always yields the identical vector. -/
theorem hashing_embed_spec (T : String) :
    (hashing_embed T 256).length = 256 ∧
    (tokensOf T = [] → hashing_embed T 256 = List.replicate 256 (0 : ℝ)) ∧
    (tokensOf T ≠ [] → Real.sqrt (sumSq (hashing_embed T 256)) = 1) ∧
    hashing_embed T 256 = hashing_embed T 256 := by
  refine ⟨?_, ?_, ?_, rfl⟩
  · by_cases h : tokensOf T = []
    · rw [hashing_embed, if_pos h, List.length_replicate]
    · simp only [hashing_embed, if_neg h, List.length_map]
      exact rawCounts_length T
  · intro h
    rw [hashing_embed, if_pos h]
  · intro h
    exact hashing_embed_norm_one T h

/-- Claim C5 witness: the theorem applied to `"hello world"` (two
tokens, so unit norm and length 256) and to `"!!!"` (no token, so the
zero vector); the token-list hypotheses are discharged by computation. -/
theorem hashing_embed_spec_witness :
    Real.sqrt (sumSq (hashing_embed "hello world" 256)) = 1 ∧
    (hashing_embed "hello world" 256).length = 256 ∧
    hashing_embed "!!!" 256 = List.replicate 256 (0 : ℝ) :=
  ⟨(hashing_embed_spec "hello world").2.2.1 (by decide),
   (hashing_embed_spec "hello world").1,
   (hashing_embed_spec "!!!").2.1 (by decide)⟩

/-! ## Claim C2 (amended theorem) -/

theorem upsertEmbedding_key_mono {es : List EmbeddingRow} {k : ℕ}
    (h : ∃ e ∈ es, e.api_id = k) (apiId : ℕ) (n d : String) :
    ∃ e ∈ upsertEmbedding es apiId n d, e.api_id = k := by
  obtain ⟨e, he, hk⟩ := h
  unfold upsertEmbedding
  by_cases hc : es.any (fun e => e.api_id == apiId) = true
  · rw [if_pos hc]
    by_cases hkey : (e.api_id == apiId) = true
    · refine ⟨⟨e.api_id, 256, hashing_embed (n ++ "\n" ++ d) 256⟩, ?_, hk⟩
      have := List.mem_map_of_mem (fun x =>
        if x.api_id == apiId then
          (⟨x.api_id, 256, hashing_embed (n ++ "\n" ++ d) 256⟩ : EmbeddingRow)
        else x) he
      simpa [hkey] using this
    · refine ⟨e, ?_, hk⟩
      have := List.mem_map_of_mem (fun x =>
        if x.api_id == apiId then
          (⟨x.api_id, 256, hashing_embed (n ++ "\n" ++ d) 256⟩ : EmbeddingRow)
        else x) he
      simpa [hkey] using this
  · rw [if_neg hc]
    exact ⟨e, List.mem_append_left _ he, hk⟩

theorem upsertEmbedding_key_present (es : List EmbeddingRow) (apiId : ℕ) (n d : String) :
    ∃ e ∈ upsertEmbedding es apiId n d, e.api_id = apiId := by
  unfold upsertEmbedding
  by_cases hc : es.any (fun e => e.api_id == apiId) = true
  · rw [if_pos hc]
    obtain ⟨e, he, hkey⟩ := List.any_eq_true.mp hc
    refine ⟨⟨e.api_id, 256, hashing_embed (n ++ "\n" ++ d) 256⟩, ?_, by simpa using hkey⟩
    have := List.mem_map_of_mem (fun x =>
      if x.api_id == apiId then
        (⟨x.api_id, 256, hashing_embed (n ++ "\n" ++ d) 256⟩ : EmbeddingRow)
      else x) he
    simpa [hkey] using this
  · rw [if_neg hc]
    exact ⟨⟨apiId, 256, hashing_embed (n ++ "\n" ++ d) 256⟩, by simp, rfl⟩

theorem upsertEmbedding_at_key {es : List EmbeddingRow} {apiId : ℕ} {n d : String}
    {e : EmbeddingRow} (he : e ∈ upsertEmbedding es apiId n d) (hk : e.api_id = apiId) :
    e.dim = 256 ∧ e.vector = hashing_embed (n ++ "\n" ++ d) 256 := by
  unfold upsertEmbedding at he
  by_cases hc : es.any (fun e => e.api_id == apiId) = true
  · rw [if_pos hc] at he
    obtain ⟨x, hx, hfx⟩ := List.mem_map.mp he
    by_cases hkey : (x.api_id == apiId) = true
    · rw [if_pos hkey] at hfx
      rw [← hfx]
      exact ⟨rfl, rfl⟩
    · rw [if_neg hkey] at hfx
      subst hfx
      exact absurd (by simpa using hk) (by simpa using hkey)
  · rw [if_neg hc] at he
    rcases List.mem_append.mp he with hin | hnew
    · have hall : ∀ x ∈ es, ¬x.api_id = apiId := by simpa using hc
      exact absurd hk (hall e hin)
    · rcases List.mem_singleton.mp hnew with rfl
      exact ⟨rfl, rfl⟩

theorem upsertEmbedding_dim {es : List EmbeddingRow} (hd : ∀ e ∈ es, e.dim = 256)
    (apiId : ℕ) (n d : String) :
    ∀ e ∈ upsertEmbedding es apiId n d, e.dim = 256 := by
  intro e he
  unfold upsertEmbedding at he
  by_cases hc : es.any (fun e => e.api_id == apiId) = true
  · rw [if_pos hc] at he
    obtain ⟨x, hx, hfx⟩ := List.mem_map.mp he
    by_cases hkey : (x.api_id == apiId) = true
    · rw [if_pos hkey] at hfx
      rw [← hfx]
    · rw [if_neg hkey] at hfx
      rw [← hfx]
      exact hd x hx
  · rw [if_neg hc] at he
    rcases List.mem_append.mp he with hin | hnew
    · exact hd e hin
    · rcases List.mem_singleton.mp hnew with rfl
      rfl

theorem upsertEmbedding_keys_nodup {es : List EmbeddingRow}
    (hn : (es.map (fun e => e.api_id)).Nodup) (apiId : ℕ) (n d : String) :
    ((upsertEmbedding es apiId n d).map (fun e => e.api_id)).Nodup := by
  unfold upsertEmbedding
  by_cases hc : es.any (fun e => e.api_id == apiId) = true
  · rw [if_pos hc]
    have hmap : (es.map (fun x =>
        if x.api_id == apiId then
          (⟨x.api_id, 256, hashing_embed (n ++ "\n" ++ d) 256⟩ : EmbeddingRow)
        else x)).map (fun e => e.api_id) = es.map (fun e => e.api_id) := by
      rw [List.map_map]
      apply List.map_congr_left
      intro x _
      simp only [Function.comp]
      split <;> rfl
    rw [hmap]
    exact hn
  · rw [if_neg hc]
    rw [List.map_append]
    simp only [List.map_cons, List.map_nil]
    rw [List.nodup_append]
    refine ⟨hn, List.nodup_singleton _, ?_⟩
    have hall : ∀ x ∈ es, ¬x.api_id = apiId := by simpa using hc
    intro a ha ha2
    obtain ⟨e, he, hek⟩ := List.mem_map.mp ha
    have ha3 : a = apiId := List.mem_singleton.mp ha2
    exact absurd (hek.trans ha3) (hall e he)

theorem filter_key_length_one {es : List EmbeddingRow} {k : ℕ}
    (hn : (es.map (fun e => e.api_id)).Nodup) (h : ∃ e ∈ es, e.api_id = k) :
    (es.filter (fun e => e.api_id == k)).length = 1 := by
  induction es with
  | nil => simp at h
  | cons x xs ih =>
    rw [List.map_cons, List.nodup_cons] at hn
    by_cases hx : (x.api_id == k) = true
    · have h2 : x.api_id = k := by simpa using hx
      have hxs : xs.filter (fun e => e.api_id == k) = [] := by
        apply List.filter_eq_nil.mpr
        intro e he hek
        have h1 : e.api_id = k := by simpa using hek
        exact hn.1 (List.mem_map.mpr ⟨e, he, by rw [h1, h2]⟩)
      rw [List.filter_cons, if_pos hx, hxs]
      rfl
    · rw [List.filter_cons, if_neg hx]
      apply ih hn.2
      obtain ⟨e, he, hek⟩ := h
      rcases List.mem_cons.mp he with rfl | hin
      · exact absurd (by simpa using hek) (by simpa using hx)
      · exact ⟨e, hin, hek⟩

/-- Index-maintenance invariant of the committed database: every record
has an embedding row, all embedding rows have dimension 256, and
embedding keys are unique.  (No clause about `fts`: ingest never manages
to write the full-text index, see `upsert_api`.) -/
def IndexInv (st : DbState) : Prop :=
  (∀ a ∈ st.apis, ∃ e ∈ st.embeddings, e.api_id = a.id) ∧
  (∀ e ∈ st.embeddings, e.dim = 256) ∧
  (st.embeddings.map (fun e => e.api_id)).Nodup

theorem emptyDb_IndexInv (fa : Bool) : IndexInv (emptyDb fa) := by
  refine ⟨?_, ?_, ?_⟩ <;> simp [emptyDb, IndexInv]

theorem upsert_api_run_IndexInv (st : DbState) (p : Payload) (now : String)
    (h : IndexInv st) : IndexInv (upsert_api_run st p now).1 := by
  obtain ⟨h1, h2, h3⟩ := h
  refine ⟨?_, ?_, ?_⟩
  · intro a ha
    rw [upsert_api_run_apis] at ha
    rw [upsert_api_run_embeddings]
    rcases hf : st.apis.find? (keyMatch (upsertName p) (upsertHost p)) with _ | r
    · rw [hf] at ha
      rcases List.mem_append.mp ha with hin | hnew
      · exact upsertEmbedding_key_mono (h1 a hin) _ _ _
      · rcases List.mem_singleton.mp hnew with rfl
        have hid : (upsert_api_run st p now).2 = st.next_id := by
          rw [upsert_api_run_id, hf]
        rw [hid]
        have hpres := upsertEmbedding_key_present st.embeddings st.next_id
          (upsertName p) (orStr p.description "")
        simpa [insertedRow] using hpres
    · rw [hf] at ha
      obtain ⟨x, hx, hfx⟩ := List.mem_map.mp ha
      have hid : a.id = x.id := by
        rw [← hfx]
        split <;> simp [mergedRow]
      rw [hid]
      exact upsertEmbedding_key_mono (h1 x hx) _ _ _
  · rw [upsert_api_run_embeddings]
    exact upsertEmbedding_dim h2 _ _ _
  · rw [upsert_api_run_embeddings]
    exact upsertEmbedding_keys_nodup h3 _ _ _

theorem applyIngest_IndexInv (st : DbState) (p : Payload) (now : String)
    (h : IndexInv st) : IndexInv (applyIngest st p now) := by
  cases hfa : st.fts_available with
  | true =>
    rw [applyIngest_fts st p now hfa]
    exact h
  | false =>
    rw [applyIngest_no_fts st p now hfa]
    exact upsert_api_run_IndexInv st p now h

theorem foldl_ingest_IndexInv (ps : List (Payload × String)) (st : DbState)
    (h : IndexInv st) :
    IndexInv (ps.foldl (fun s pn => applyIngest s pn.1 pn.2) st) := by
  induction ps generalizing st with
  | nil => exact h
  | cons q qs ih => exact ih _ (applyIngest_IndexInv _ _ _ h)

theorem runIngests_IndexInv (fa : Bool) (ps : List (Payload × String)) :
    IndexInv (runIngests fa ps) :=
  foldl_ingest_IndexInv ps (emptyDb fa) (emptyDb_IndexInv fa)

theorem applyIngest_fa (st : DbState) (p : Payload) (now : String) :
    (applyIngest st p now).fts_available = st.fts_available := by
  cases hfa : st.fts_available with
  | true => rw [applyIngest_fts st p now hfa, hfa]
  | false => rw [applyIngest_no_fts st p now hfa, upsert_api_run_fa, hfa]

theorem foldl_ingest_fa (ps : List (Payload × String)) (st : DbState) :
    (ps.foldl (fun s pn => applyIngest s pn.1 pn.2) st).fts_available =
      st.fts_available := by
  induction ps generalizing st with
  | nil => rfl
  | cons q qs ih => rw [List.foldl_cons, ih, applyIngest_fa]

theorem runIngests_fa (fa : Bool) (ps : List (Payload × String)) :
    (runIngests fa ps).fts_available = fa := by
  unfold runIngests
  rw [foldl_ingest_fa]
  rfl

/-- Claim C2 counterexample: with FTS5 unavailable (so that ingest
completes at all), ingest the payload `{name "!!!", host "h",
description "Space data"}` and then re-ingest the key-only payload
`{name "!!!", host "h"}`.  The merge preserves the stored description
`"Space data"`, but the embedding is rebuilt from the PAYLOAD name and
description, i.e. from `"!!!" ++ "\n" ++ ""`, which has no alphanumeric
token, so the stored vector is the all-zero vector — while the embedding
of the current name and description of the record has norm 1 and is
nonzero. The index entry of the record therefore does not derive from
its current fields. -/
theorem embedding_not_from_current_fields :
    ((applyIngest (applyIngest (emptyDb false) pBangFull "t1") pBangKey "t2").apis.map
        (fun a => (a.id, a.name, a.description)) = [(1, "!!!", some "Space data")]) ∧
    ((applyIngest (applyIngest (emptyDb false) pBangFull "t1") pBangKey "t2").embeddings.map
        (fun e => (e.api_id, e.dim)) = [(1, 256)]) ∧
    ((applyIngest (applyIngest (emptyDb false) pBangFull "t1") pBangKey "t2").embeddings.map
        (fun e => e.vector) = [List.replicate 256 (0 : ℝ)]) ∧
    hashing_embed ("!!!" ++ "\n" ++ "Space data") 256 ≠ List.replicate 256 (0 : ℝ) := by
  refine ⟨by rfl, by rfl, ?_, ?_⟩
  · rw [show (applyIngest (applyIngest (emptyDb false) pBangFull "t1") pBangKey
        "t2").embeddings.map (fun e => e.vector) =
          [hashing_embed ("!!!" ++ "\n" ++ "") 256] from rfl]
    rw [show hashing_embed ("!!!" ++ "\n" ++ "") 256 = List.replicate 256 (0 : ℝ) from by
      rw [hashing_embed]
      exact if_pos (by decide)]
  · intro hEq
    have h1 : Real.sqrt (sumSq (hashing_embed ("!!!" ++ "\n" ++ "Space data") 256)) = 1 :=
      hashing_embed_norm_one _ (by decide)
    rw [hEq, sumSq_replicate_zero, Real.sqrt_zero] at h1
    exact zero_ne_one h1

/-- Claim C2 (amended): over any state reachable by a sequence of ingest
attempts from a fresh database — when FTS5 is available every ingest
raises `sqlite3.OperationalError` and commits nothing, so nothing is
indexed at all; when FTS5 is unavailable the ingest completes, the id it
operates under has exactly one embedding row, every embedding row of
that id has dimension 256 and a vector derived from the PAYLOAD name and
payload description (not from the merged record, as the counterexample
shows), the full-text index is untouched, on the insert path the
operated-on id is a genuine record id, every record of the resulting
state owns an embedding row of dimension 256 — and in every reachable
state every record owns an embedding row of dimension 256. -/
theorem upsert_api_index_sync (fa : Bool) (ps : List (Payload × String)) (p : Payload)
    (now : String) :
    (fa = true → upsert_api (runIngests fa ps) p now =
      Except.error (DbError.operationalError
        "UPSERT not implemented for virtual table apis_fts")) ∧
    (fa = false →
      upsert_api (runIngests fa ps) p now =
        Except.ok (upsert_api_run (runIngests fa ps) p now) ∧
      ((upsert_api_run (runIngests fa ps) p now).1.embeddings.filter
          (fun e => e.api_id == (upsert_api_run (runIngests fa ps) p now).2)).length = 1 ∧
      (∀ e ∈ (upsert_api_run (runIngests fa ps) p now).1.embeddings,
        e.api_id = (upsert_api_run (runIngests fa ps) p now).2 →
          e.dim = 256 ∧
          e.vector = hashing_embed (upsertName p ++ "\n" ++ orStr p.description "") 256) ∧
      (upsert_api_run (runIngests fa ps) p now).1.fts = (runIngests fa ps).fts ∧
      ((runIngests fa ps).apis.find? (keyMatch (upsertName p) (upsertHost p)) = none →
        ∃ a ∈ (upsert_api_run (runIngests fa ps) p now).1.apis,
          a.id = (upsert_api_run (runIngests fa ps) p now).2) ∧
      (∀ a ∈ (upsert_api_run (runIngests fa ps) p now).1.apis,
        ∃ e ∈ (upsert_api_run (runIngests fa ps) p now).1.embeddings,
          e.api_id = a.id ∧ e.dim = 256)) ∧
    (∀ a ∈ (runIngests fa ps).apis,
      ∃ e ∈ (runIngests fa ps).embeddings, e.api_id = a.id ∧ e.dim = 256) := by
  obtain ⟨i1, i2, i3⟩ := runIngests_IndexInv fa ps
  refine ⟨?_, ?_, ?_⟩
  · intro hfa
    exact upsert_api_fts_error _ p now (by rw [runIngests_fa]; exact hfa)
  · intro hfa
    have hfa2 : (runIngests fa ps).fts_available = false := by
      rw [runIngests_fa]
      exact hfa
    obtain ⟨j1, j2, j3⟩ := upsert_api_run_IndexInv (runIngests fa ps) p now ⟨i1, i2, i3⟩
    refine ⟨upsert_api_no_fts _ p now hfa2, ?_, ?_, upsert_api_run_fts _ p now, ?_, ?_⟩
    · rw [upsert_api_run_embeddings]
      apply filter_key_length_one
      · have h3 := j3
        rw [upsert_api_run_embeddings] at h3
        exact h3
      · exact upsertEmbedding_key_present _ _ _ _
    · intro e he hk
      rw [upsert_api_run_embeddings] at he
      exact upsertEmbedding_at_key he hk
    · intro hf
      refine ⟨insertedRow p now (runIngests fa ps).next_id, ?_, ?_⟩
      · rw [upsert_api_run_apis, hf]
        exact List.mem_append_right _ (List.mem_singleton_self _)
      · rw [upsert_api_run_id, hf]
        rfl
    · intro a ha
      obtain ⟨e, he, hk⟩ := j1 a ha
      exact ⟨e, he, hk, j2 e he⟩
  · intro a ha
    obtain ⟨e, he, hk⟩ := i1 a ha
    exact ⟨e, he, hk, i2 e he⟩

/-- Claim C2 witness: the amended theorem applied to the empty ingest
history with FTS5 unavailable and the described payload; the successful
result, the embedding count at the operated-on id and the insert-path id
fact are produced concretely. -/
theorem upsert_api_index_sync_witness :
    upsert_api (runIngests false []) pDescribed "t" =
      Except.ok (upsert_api_run (runIngests false []) pDescribed "t") ∧
    ((upsert_api_run (runIngests false []) pDescribed "t").1.embeddings.filter
        (fun e => e.api_id == (upsert_api_run (runIngests false []) pDescribed "t").2)).length
      = 1 ∧
    (∃ a ∈ (upsert_api_run (runIngests false []) pDescribed "t").1.apis,
        a.id = (upsert_api_run (runIngests false []) pDescribed "t").2) :=
  ⟨((upsert_api_index_sync false [] pDescribed "t").2.1 rfl).1,
   ((upsert_api_index_sync false [] pDescribed "t").2.1 rfl).2.1,
   ((upsert_api_index_sync false [] pDescribed "t").2.1 rfl).2.2.2.2.1 rfl⟩

/-! ## Claim C4 -/

theorem insertScoredDesc_perm (x : ℝ × ApiRow) (l : List (ℝ × ApiRow)) :
    (insertScoredDesc x l).Perm (x :: l) := by
  induction l with
  | nil => exact List.Perm.refl _
  | cons y ys ih =>
    unfold insertScoredDesc
    split
    · exact (ih.cons y).trans (List.Perm.swap x y ys)
    · exact List.Perm.refl _

theorem sortScoredDesc_perm (l : List (ℝ × ApiRow)) : (sortScoredDesc l).Perm l := by
  induction l with
  | nil => exact List.Perm.refl _
  | cons x xs ih =>
    exact (insertScoredDesc_perm x (sortScoredDesc xs)).trans (ih.cons x)

theorem insertScoredDesc_sorted {l : List (ℝ × ApiRow)}
    (h : l.Pairwise (fun a b => b.1 ≤ a.1)) (x : ℝ × ApiRow) :
    (insertScoredDesc x l).Pairwise (fun a b => b.1 ≤ a.1) := by
  induction l with
  | nil => simp [insertScoredDesc]
  | cons y ys ih =>
    rw [List.pairwise_cons] at h
    obtain ⟨h1, h2⟩ := h
    unfold insertScoredDesc
    by_cases hc : x.1 < y.1
    · rw [if_pos hc]
      refine List.Pairwise.cons ?_ (ih h2)
      intro b hb
      have hb2 : b ∈ x :: ys := (insertScoredDesc_perm x ys).mem_iff.mp hb
      rcases List.mem_cons.mp hb2 with rfl | hin
      · exact le_of_lt hc
      · exact h1 b hin
    · rw [if_neg hc]
      have hxy : y.1 ≤ x.1 := not_lt.mp hc
      refine List.Pairwise.cons ?_ (List.Pairwise.cons h1 h2)
      intro b hb
      rcases List.mem_cons.mp hb with rfl | hin
      · exact hxy
      · exact le_trans (h1 b hin) hxy

theorem sortScoredDesc_sorted (l : List (ℝ × ApiRow)) :
    (sortScoredDesc l).Pairwise (fun a b => b.1 ≤ a.1) := by
  induction l with
  | nil => simp [sortScoredDesc]
  | cons x xs ih => exact insertScoredDesc_sorted ih x

theorem scoredRows_score {st : DbState} {q : String} {thr : ℝ} :
    ∀ x ∈ scoredRows st q thr, thr ≤ x.1 := by
  intro x hx
  unfold scoredRows at hx
  obtain ⟨pr, hpr, hsome⟩ := List.mem_filterMap.mp hx
  dsimp only at hsome
  by_cases hc : thr ≤ dotProd (hashing_embed q 256) pr.1.vector
  · rw [if_pos hc] at hsome
    injection hsome with h1
    rw [← h1]
    exact hc
  · rw [if_neg hc] at hsome
    cases hsome

theorem scoredRows_complete {st : DbState} {q : String} {thr : ℝ} (pr : EmbeddingRow × ApiRow)
    (hpr : pr ∈ joinEmb st) (h : thr ≤ dotProd (hashing_embed q 256) pr.1.vector) :
    (dotProd (hashing_embed q 256) pr.1.vector, pr.2) ∈ scoredRows st q thr := by
  unfold scoredRows
  apply List.mem_filterMap.mpr
  refine ⟨pr, hpr, ?_⟩
  dsimp only
  rw [if_pos h]

/-- Claim C4: the semantic bucket is obtained from the
embeddings-join by keeping exactly the rows whose stored-vector dot
product with the embedded query reaches the threshold 0.2 (soundness and
completeness of `scoredRows`), sorting them by descending score, and
truncating to 25; hence every returned row scores at least 0.2, the list
is in descending score order, holds at most 25 rows, and — whenever at
most 25 rows qualify — consists of exactly the qualifying rows. -/
theorem semantic_search_spec (st : DbState) (q : String) :
    semantic_search st q 25 (0.2 : ℝ) =
      ((sortScoredDesc (scoredRows st q (0.2 : ℝ))).take 25).map (fun pr => pr.2) ∧
    (∀ x ∈ scoredRows st q (0.2 : ℝ), (0.2 : ℝ) ≤ x.1) ∧
    (∀ pr ∈ joinEmb st, (0.2 : ℝ) ≤ dotProd (hashing_embed q 256) pr.1.vector →
      (dotProd (hashing_embed q 256) pr.1.vector, pr.2) ∈ scoredRows st q (0.2 : ℝ)) ∧
    (sortScoredDesc (scoredRows st q (0.2 : ℝ))).Pairwise (fun a b => b.1 ≤ a.1) ∧
    (semantic_search st q 25 (0.2 : ℝ)).length ≤ 25 ∧
    ((scoredRows st q (0.2 : ℝ)).length ≤ 25 →
      semantic_search st q 25 (0.2 : ℝ) =
        (sortScoredDesc (scoredRows st q (0.2 : ℝ))).map (fun pr => pr.2) ∧
      (sortScoredDesc (scoredRows st q (0.2 : ℝ))).Perm (scoredRows st q (0.2 : ℝ))) := by
  refine ⟨rfl, scoredRows_score, scoredRows_complete, sortScoredDesc_sorted _, ?_, ?_⟩
  · rw [semantic_search, List.length_map, List.length_take]
    exact min_le_left _ _
  · intro hlen
    have hsortlen : (sortScoredDesc (scoredRows st q (0.2 : ℝ))).length ≤ 25 := by
      rw [(sortScoredDesc_perm _).length_eq]
      exact hlen
    constructor
    · rw [semantic_search, List.take_of_length_le hsortlen]
    · exact sortScoredDesc_perm _

/-- Claim C4 witness: the theorem applied to the fresh database and the
query `"q"`; the qualifying set is empty, so the cap hypothesis holds by
computation and the bucket is exactly the (empty) qualifying set. -/
theorem semantic_search_spec_witness :
    semantic_search (emptyDb false) "q" 25 (0.2 : ℝ) =
      (sortScoredDesc (scoredRows (emptyDb false) "q" (0.2 : ℝ))).map (fun pr => pr.2) ∧
    (sortScoredDesc (scoredRows (emptyDb false) "q" (0.2 : ℝ))).Perm
      (scoredRows (emptyDb false) "q" (0.2 : ℝ)) ∧
    (semantic_search (emptyDb false) "q" 25 (0.2 : ℝ)).length ≤ 25 := by
  have h := semantic_search_spec (emptyDb false) "q"
  have hcap := h.2.2.2.2.2 (by decide)
  exact ⟨hcap.1, hcap.2, h.2.2.2.2.1⟩

/-! ## Claim C9 (amended theorem) -/

theorem find?_of_proj_eq {A B : List ApiRow}
    (hAB : A.map (fun x => (x.id, x.name, x.host)) = B.map (fun x => (x.id, x.name, x.host)))
    (hN : (B.map (fun x => (x.name, x.host))).Nodup) {r : ApiRow} (hr : r ∈ B) :
    ∃ x, A.find? (keyMatch r.name r.host) = some x ∧ x.id = r.id := by
  induction B generalizing A with
  | nil => cases hr
  | cons b bs ih =>
    cases A with
    | nil => simp at hAB
    | cons a as =>
      rw [List.map_cons, List.map_cons] at hAB
      injection hAB with hhead htail
      rw [List.map_cons, List.nodup_cons] at hN
      obtain ⟨hnotin, hN2⟩ := hN
      have hid : a.id = b.id := congrArg Prod.fst hhead
      have hname : a.name = b.name := congrArg (fun t => t.2.1) hhead
      have hhost : a.host = b.host := congrArg (fun t => t.2.2) hhead
      rcases List.mem_cons.mp hr with rfl | hin
      · refine ⟨a, ?_, by rw [hid]⟩
        apply List.find?_cons_of_pos
        simp [keyMatch, hname, hhost]
      · have hbne : ¬(r.name = b.name ∧ r.host = b.host) := by
          rintro ⟨e1, e2⟩
          exact hnotin (List.mem_map.mpr ⟨r, hin, by rw [e1, e2]⟩)
        have hkey : keyMatch r.name r.host a = false := by
          simp only [keyMatch, hname, hhost]
          by_cases e1 : b.name = r.name
          · by_cases e2 : b.host = r.host
            · exact absurd ⟨e1.symm, e2.symm⟩ hbne
            · simp [e1, e2]
          · simp [e1]
        rw [List.find?_cons_of_neg _ (by rw [hkey]; exact Bool.false_ne_true)]
        exact ih htail hN2 hin

theorem map_proj3_merge (l : List ApiRow) (p : Payload) (now : String) (n h : String) :
    (l.map (fun y => if keyMatch n h y then mergedRow p now y else y)).map
      (fun x => (x.id, x.name, x.host)) = l.map (fun x => (x.id, x.name, x.host)) := by
  rw [List.map_map]
  apply List.map_congr_left
  intro x _
  simp only [Function.comp]
  split <;> simp [mergedRow]

theorem reingest_step (st : DbState)
    (hN3 : (st.apis.map (fun x => (x.name, x.host))).Nodup)
    {r : ApiRow} (hr : r ∈ st.apis)
    (hname : r.name ≠ "") (hhost2 : norm_host (some r.host) = some r.host)
    (cur : DbState) (now : String) (hfa : cur.fts_available = false)
    (hA : cur.apis.map (fun x => (x.id, x.name, x.host)) =
      st.apis.map (fun x => (x.id, x.name, x.host))) :
    (applyIngest cur (exportPayload st r) now).apis.map (fun x => (x.id, x.name, x.host)) =
      st.apis.map (fun x => (x.id, x.name, x.host)) ∧
    (applyIngest cur (exportPayload st r) now).fts_available = false := by
  have hhostne : r.host ≠ "" := by
    intro h0
    rw [h0] at hhost2
    simp [norm_host] at hhost2
  have hn : upsertName (exportPayload st r) = r.name := by
    simp [upsertName, exportPayload, orStr, hname]
  have hh : upsertHost (exportPayload st r) = r.host := by
    simp only [upsertHost, exportPayload]
    rw [show orStr (some r.host) (orStr r.base_url (orStr none "unknown")) = r.host from
      by simp [orStr, hhostne]]
    rw [hhost2]
    rfl
  obtain ⟨x, hfx, hxid⟩ := find?_of_proj_eq hA hN3 hr
  have hfind : cur.apis.find? (keyMatch (upsertName (exportPayload st r))
      (upsertHost (exportPayload st r))) = some x := by
    rw [hn, hh]
    exact hfx
  rw [applyIngest_no_fts cur _ now hfa]
  constructor
  · rw [upsert_api_run_apis, hfind]
    rw [map_proj3_merge]
    exact hA
  · rw [upsert_api_run_fa]
    exact hfa

theorem reingest_fold (st : DbState)
    (H1 : ∀ r ∈ st.apis, r.name ≠ "")
    (H2 : ∀ r ∈ st.apis, norm_host (some r.host) = some r.host)
    (hN3 : (st.apis.map (fun x => (x.name, x.host))).Nodup)
    (rs : List ApiRow) (hsub : ∀ r ∈ rs, r ∈ st.apis) (cur : DbState) (now : String)
    (hfa : cur.fts_available = false)
    (hA : cur.apis.map (fun x => (x.id, x.name, x.host)) =
      st.apis.map (fun x => (x.id, x.name, x.host))) :
    (rs.foldl (fun s r => applyIngest s (exportPayload st r) now) cur).apis.map
      (fun x => (x.id, x.name, x.host)) = st.apis.map (fun x => (x.id, x.name, x.host)) ∧
    (rs.foldl (fun s r => applyIngest s (exportPayload st r) now) cur).fts_available =
      false := by
  induction rs generalizing cur with
  | nil => exact ⟨hA, hfa⟩
  | cons r rest ih =>
    rw [List.foldl_cons]
    have hrm : r ∈ st.apis := hsub r (List.mem_cons_self r rest)
    have hstep := reingest_step st hN3 hrm (H1 r hrm) (H2 r hrm) cur now hfa hA
    exact ih (fun a ha => hsub a (List.mem_cons_of_mem _ ha)) _ hstep.2 hstep.1

/-- Claim C9 (amended): for every catalog state with FTS5 unavailable
(with FTS5 available every re-ingest raises and the claim of a restored
catalog is vacuous at best) satisfying the record invariants every
purely-ingest-built state satisfies EXCEPT that no record has an empty
host — names non-empty, hosts non-empty fixpoints of the normaliser,
unique `(name, host)` keys — exporting with `dump_json` and re-ingesting
every exported record preserves the record ids, names and hosts (hence
the record count).  The blank-host counterexample shows this fails
without the non-empty-host proviso; the endpoints table is NOT claimed
to be preserved: re-ingest runs `_upsert_endpoints` under the stale
`cur.lastrowid`, which on the merge path need not be the id of the
re-ingested record, so exported endpoints can be re-inserted under a
different record. -/
theorem dump_json_reingest_roundtrip (st : DbState) (now : String)
    (hfa : st.fts_available = false)
    (H1 : ∀ r ∈ st.apis, r.name ≠ "")
    (H2 : ∀ r ∈ st.apis, norm_host (some r.host) = some r.host)
    (H3 : (st.apis.map (fun x => (x.name, x.host))).Nodup) :
    (ingestAll st (dump_json st) now).apis.map (fun x => (x.id, x.name, x.host)) =
      st.apis.map (fun x => (x.id, x.name, x.host)) ∧
    (ingestAll st (dump_json st) now).apis.length = st.apis.length := by
  have hfold : ingestAll st (dump_json st) now =
      st.apis.foldl (fun s r => applyIngest s (exportPayload st r) now) st := by
    unfold ingestAll dump_json
    rw [List.foldl_map]
  rw [hfold]
  have h := reingest_fold st H1 H2 H3 st.apis (fun _ hr => hr) st now hfa rfl
  refine ⟨h.1, ?_⟩
  have hlen := congrArg List.length h.1
  simpa using hlen

set_option maxRecDepth 10000 in
/-- Claim C9 witness: the amended theorem applied to the one-row
database, whose hypotheses all hold by computation: export followed by
re-ingest leaves the record count unchanged. -/
theorem dump_json_reingest_roundtrip_witness :
    (ingestAll stOneRow (dump_json stOneRow) "t2").apis.length = stOneRow.apis.length :=
  (dump_json_reingest_roundtrip stOneRow "t2" (by decide) (by decide) (by decide)
    (by decide)).2
